import Mathlib

/-!
The in-memory registry of fleet (`registry/fake.go`)

A shallow embedding of `FakeRegistry`, the in-memory implementation of the
registry interface, and further down of the `start` command of fleetctl
(`fleetctl/start.go`), followed by theorems about their operations.

Conventions of the embedding

* A Go `string` is a `String`.  Go compares strings byte-wise over their
  UTF-8 encoding, which agrees with the code-point order of `String`.
* A Go `map[string]V` is a `GoMap V`: a finite map with unique keys whose
  equality is extensional, so that the iteration order of the Go map is not
  observable in the model.
* A Go pointer that is only read (`*unit.UnitState`, `*semver.Version`,
  `*JobState`) is an `Option`; `none` is `nil`.
* A Go `error` result is an `Option String`: `none` is `nil`, `some msg` is
  `errors.New(msg)`.
* Every method takes the receiver state and returns the new state next to
  its Go results.  The read/write lock only serialises the methods, so a
  method is one atomic step on the state.
* A run-time panic (writing to a `nil` map) is the result `none`.
-/

set_option linter.dupNamespace false

namespace registry

/-- A Go `map[string]V`. -/
abbrev GoMap (V : Type) : Type := Finmap (fun _ : String => V)

namespace unit

/-- Modelled from the spec: the type `unit.UnitFile` is declared in package
`unit`, outside the sources at hand.  The spec calls it the "raw definition
(unit-file content, opaque blob to the core)". -/
structure UnitFile where
  raw : String
  deriving DecidableEq, Repr

/-- Modelled from the spec: the type `unit.UnitState` is declared in package
`unit`, outside the sources at hand.  The spec calls it "machine-reported
facts about a running unit (process status ...)", reported under a machine
ID (`reportRuntimeState(name, machineID, state)`). -/
structure UnitState where
  MachineID : String
  ActiveState : String
  deriving DecidableEq, Repr

end unit

namespace machine

/-- Modelled from the spec: the type `machine.MachineState` is declared in
package `machine`, outside the sources at hand.  The spec gives a machine an
"identity (stable boot/agent ID), reachability address, tag set". -/
structure MachineState where
  ID : String
  PublicIP : String
  Metadata : List (String × String)
  deriving DecidableEq, Repr

end machine

namespace semver

/-- Modelled from the spec: the type `semver.Version` (the "cluster schema
version") is declared in a vendored package outside the sources at hand. -/
structure Version where
  Major : Int
  Minor : Int
  Patch : Int
  deriving DecidableEq, Repr

end semver

namespace job

/-- The Go type `job.JobState` is a string. -/
abbrev JobState : Type := String

/-- The fields of `job.Unit` that `fake.go` reads and writes. -/
structure Unit where
  Name : String
  Unit : unit.UnitFile
  TargetState : JobState
  deriving DecidableEq, Repr

/-- The fields of `job.ScheduledUnit` that `fake.go` writes. -/
structure ScheduledUnit where
  Name : String
  State : Option JobState
  TargetMachineID : String
  deriving DecidableEq, Repr

/-- The fields of `job.Job` that `fake.go` reads and writes. -/
structure Job where
  Name : String
  State : Option JobState
  TargetState : JobState
  TargetMachineID : String
  Unit : unit.UnitFile
  UnitState : Option unit.UnitState
  deriving DecidableEq, Repr

/-- The zero value of `job.Job`, which indexing a map at a missing key
yields. -/
def Job.zero : Job :=
  { Name := "", State := none, TargetState := "", TargetMachineID := "",
    Unit := { raw := "" }, UnitState := none }

end job

/-- The state of a `FakeRegistry`.  `jobStates` may be the `nil` map, since
`SetUnitStates` stores whatever map it is given; `jobs` is always allocated
(`NewFakeRegistry` and `SetJobs` both allocate it). -/
structure FakeRegistry where
  machines : List machine.MachineState
  jobStates : Option (GoMap (Option unit.UnitState))
  jobs : GoMap job.Job
  units : List unit.UnitFile
  version : Option semver.Version
  deriving DecidableEq

/-- `NewFakeRegistry`: every collection empty, no version. -/
def NewFakeRegistry : FakeRegistry :=
  { machines := [], jobStates := some ∅, jobs := ∅, units := [], version := none }

namespace FakeRegistry

/-- The Go expression `f.jobs[name]` read as a value: the zero job at a
missing key. -/
def jobsIndex (f : FakeRegistry) (name : String) : job.Job :=
  (f.jobs.lookup name).getD job.Job.zero

/-- The Go expression `f.jobStates[name]` read as a value: `nil` at a missing
key and on the `nil` map. -/
def jobStatesIndex (f : FakeRegistry) (name : String) : Option unit.UnitState :=
  match f.jobStates with
  | none => none
  | some js => (js.lookup name).getD none

/-- `SetMachines`. -/
def SetMachines (f : FakeRegistry) (machines : List machine.MachineState) : FakeRegistry :=
  { f with machines := machines }

/-- `SetJobs`: a fresh map, filled in list order, a later job replacing an
earlier one of the same name. -/
def SetJobs (f : FakeRegistry) (jobs : List job.Job) : FakeRegistry :=
  { f with jobs := jobs.foldl (fun m j => m.insert j.Name j) ∅ }

/-- `SetUnitStates`. -/
def SetUnitStates (f : FakeRegistry) (jobStates : Option (GoMap (Option unit.UnitState))) :
    FakeRegistry :=
  { f with jobStates := jobStates }

/-- `SetUnits`. -/
def SetUnits (f : FakeRegistry) (units : List unit.UnitFile) : FakeRegistry :=
  { f with units := units }

/-- `SetLatestVersion`. -/
def SetLatestVersion (f : FakeRegistry) (v : semver.Version) : FakeRegistry :=
  { f with version := some v }

/-- `Machines`. -/
def Machines (f : FakeRegistry) : List machine.MachineState × Option String :=
  (f.machines, none)

/-- The `sorted` slice of `Units` and `Schedule`: the `Name` of every stored
job, collected by ranging over the map, then sorted ascending. -/
def sortedNames (f : FakeRegistry) : List String :=
  (f.jobs.entries.map (fun e => e.2.Name)).sort (· ≤ ·)

/-- `Units`. -/
def Units (f : FakeRegistry) : List job.Unit × Option String :=
  ((f.sortedNames).map (fun jName =>
      let j := f.jobsIndex jName
      { Name := j.Name, Unit := j.Unit, TargetState := j.TargetState }),
   none)

/-- `Schedule`. -/
def Schedule (f : FakeRegistry) : List job.ScheduledUnit × Option String :=
  ((f.sortedNames).map (fun jName =>
      let j := f.jobsIndex jName
      { Name := j.Name, State := j.State, TargetMachineID := j.TargetMachineID }),
   none)

/-- `Unit`. -/
def Unit (f : FakeRegistry) (name : String) : Option job.Unit × Option String :=
  match f.jobs.lookup name with
  | none => (none, none)
  | some j => (some { Name := j.Name, Unit := j.Unit, TargetState := j.TargetState }, none)

/-- `ScheduledUnit`. -/
def ScheduledUnit (f : FakeRegistry) (name : String) :
    Option job.ScheduledUnit × Option String :=
  match f.jobs.lookup name with
  | none => (none, none)
  | some j =>
    let j : job.Job := { j with UnitState := f.jobStatesIndex name }
    (some { Name := j.Name, State := j.State, TargetMachineID := j.TargetMachineID }, none)

/-- `CreateUnit`, called with a non-nil unit. -/
def CreateUnit (f : FakeRegistry) (u : job.Unit) : FakeRegistry × Option String :=
  match f.jobs.lookup u.Name with
  | some _ => (f, some "unit already exists")
  | none =>
    let j : job.Job := { job.Job.zero with Name := u.Name, Unit := u.Unit }
    ({ f with jobs := f.jobs.insert u.Name j }, none)

/-- `DestroyJob`. -/
def DestroyJob (f : FakeRegistry) (name : String) : FakeRegistry × Option String :=
  ({ f with jobs := f.jobs.erase name }, none)

/-- `SetJobTargetState`. -/
def SetJobTargetState (f : FakeRegistry) (name : String) (target : job.JobState) :
    FakeRegistry × Option String :=
  match f.jobs.lookup name with
  | none => (f, some "job does not exist")
  | some j =>
    let j : job.Job := { j with TargetState := target }
    ({ f with jobs := f.jobs.insert name j }, none)

/-- `ScheduleJob`. -/
def ScheduleJob (f : FakeRegistry) (name : String) (machID : String) :
    FakeRegistry × Option String :=
  match f.jobs.lookup name with
  | none => (f, some "job does not exist")
  | some j =>
    let j : job.Job := { j with TargetMachineID := machID }
    ({ f with jobs := f.jobs.insert name j }, none)

/-- `SaveUnitState`: no result; `none` is the panic of writing to the `nil`
map. -/
def SaveUnitState (f : FakeRegistry) (jobName : String) (unitState : Option unit.UnitState) :
    Option FakeRegistry :=
  match f.jobStates with
  | none => none
  | some js => some { f with jobStates := some (js.insert jobName unitState) }

/-- `RemoveUnitState`: `delete` is a no-op on the `nil` map. -/
def RemoveUnitState (f : FakeRegistry) (jobName : String) : FakeRegistry × Option String :=
  ({ f with jobStates := f.jobStates.map (fun js => js.erase jobName) }, none)

/-- `LatestVersion`. -/
def LatestVersion (f : FakeRegistry) : Option semver.Version × Option String :=
  (f.version, none)

/-- `JobHeartbeat`. -/
def JobHeartbeat (f : FakeRegistry) (_jobName _agentMachID : String) (_ttl : Int) :
    FakeRegistry × Option String :=
  (f, none)

/-- `ClearJobHeartbeat`. -/
def ClearJobHeartbeat (f : FakeRegistry) (_jobName : String) : FakeRegistry :=
  f

end FakeRegistry

/-- The public operations of a `FakeRegistry` that can change its state. -/
inductive Op where
  | SetMachines (machines : List machine.MachineState)
  | SetJobs (jobs : List job.Job)
  | SetUnitStates (jobStates : Option (GoMap (Option unit.UnitState)))
  | SetUnits (units : List unit.UnitFile)
  | SetLatestVersion (v : semver.Version)
  | CreateUnit (u : job.Unit)
  | DestroyJob (name : String)
  | SetJobTargetState (name : String) (target : job.JobState)
  | ScheduleJob (name : String) (machID : String)
  | SaveUnitState (jobName : String) (unitState : Option unit.UnitState)
  | RemoveUnitState (jobName : String)
  | JobHeartbeat (jobName : String) (agentMachID : String) (ttl : Int)
  | ClearJobHeartbeat (jobName : String)

/-- One public operation applied to a registry; `none` when the call
panics. -/
def Op.apply (f : FakeRegistry) : Op → Option FakeRegistry
  | .SetMachines machines => some (f.SetMachines machines)
  | .SetJobs jobs => some (f.SetJobs jobs)
  | .SetUnitStates jobStates => some (f.SetUnitStates jobStates)
  | .SetUnits units => some (f.SetUnits units)
  | .SetLatestVersion v => some (f.SetLatestVersion v)
  | .CreateUnit u => some (f.CreateUnit u).1
  | .DestroyJob name => some (f.DestroyJob name).1
  | .SetJobTargetState name target => some (f.SetJobTargetState name target).1
  | .ScheduleJob name machID => some (f.ScheduleJob name machID).1
  | .SaveUnitState jobName unitState => f.SaveUnitState jobName unitState
  | .RemoveUnitState jobName => some (f.RemoveUnitState jobName).1
  | .JobHeartbeat jobName agentMachID ttl => some (f.JobHeartbeat jobName agentMachID ttl).1
  | .ClearJobHeartbeat jobName => some (f.ClearJobHeartbeat jobName)

/-- A sequence of public operations applied from left to right. -/
def run (f : FakeRegistry) : List Op → Option FakeRegistry
  | [] => some f
  | op :: ops => (op.apply f).bind (fun g => run g ops)

/-- The registry states that the public operations reach from
`NewFakeRegistry`. -/
def Reachable (f : FakeRegistry) : Prop :=
  ∃ ops : List Op, run NewFakeRegistry ops = some f

/-- The invariant of the jobs map: every key is the `Name` of the job stored
under it. -/
def KeysAreNames (f : FakeRegistry) : Prop :=
  ∀ (k : String) (j : job.Job), f.jobs.lookup k = some j → j.Name = k

/-- A sample machine. -/
def sampleMachine : machine.MachineState :=
  { ID := "m1", PublicIP := "10.0.0.1", Metadata := [("region", "us-east")] }

/-- A sample job: `web.service`, launched and placed on machine `m1`. -/
def sampleJob : job.Job :=
  { Name := "web.service", State := some "launched", TargetState := "launched",
    TargetMachineID := "m1", Unit := { raw := "[Service]" }, UnitState := none }

/-- A sample unit state, reported by machine `m2`. -/
def sampleUnitState : unit.UnitState :=
  { MachineID := "m2", ActiveState := "active" }

/-- A sample registry: machine `m1` listed, `web.service` placed on it, and a
unit state stored for `web.service`. -/
def sampleRegistry : FakeRegistry :=
  { machines := [sampleMachine],
    jobStates := some (Finmap.singleton "web.service" (some sampleUnitState)),
    jobs := Finmap.singleton "web.service" sampleJob,
    units := [],
    version := none }

/-- A sample unit as a client submits it: `web.service`, to be launched. -/
def sampleUnit : job.Unit :=
  { Name := "web.service", Unit := { raw := "[Service]" }, TargetState := "launched" }

/-- A job list that names `web.service` twice, with two target machines. -/
def duplicateJobs : List job.Job :=
  [sampleJob, { sampleJob with TargetMachineID := "m2" }]

/-- A job list of two units, given out of order: `web.service`, placed on
`m1`, before `db.service`, unplaced. -/
def twoJobs : List job.Job :=
  [sampleJob, { sampleJob with Name := "db.service", TargetMachineID := "" }]

/-- The operations that build `sampleRegistry`. -/
def sampleOps : List Op :=
  [.SetMachines [sampleMachine], .SetJobs [sampleJob],
   .SaveUnitState "web.service" (some sampleUnitState)]

end registry

/-!
The `start` command of fleetctl (`fleetctl/start.go`)

`parseRequirements`, `startUnitAction` and `checkJobTarget`, with the
functions of the Go standard library that they call.
-/

/-! ### Package `strings` of the Go standard library -/

namespace strings

/-- `strings.Index(s, sep)` for a one-character `sep`: the index of the first
`sep` in `s`; `none` is the result `-1`. -/
def Index : List Char → Char → Option Nat
  | [], _ => none
  | c :: cs, sep => if c = sep then some 0 else (Index cs sep).map (· + 1)

/-- `strings.Count(s, sep)` for a one-character `sep`. -/
def Count (s : List Char) (sep : Char) : Nat :=
  s.count sep

/-- The loop of `genSplit`, which `Split` and `SplitN` share: while a further
piece is allowed (`k` counts them) and `sep` occurs at some index `m`, cut
off `s[:m]` and go on with `s[m+1:]`; the rest of `s` is the last piece. -/
def genSplit (sep : Char) : Nat → List Char → List (List Char)
  | 0, s => [s]
  | k + 1, s =>
    match Index s sep with
    | none => [s]
    | some m => s.take m :: genSplit sep k (s.drop (m + 1))

/-- `strings.Split(s, sep)` for a one-character `sep`: `genSplit` with
`Count(s, sep) + 1` pieces allowed. -/
def Split (s : String) (sep : Char) : List String :=
  (genSplit sep (Count s.data sep) s.data).map String.mk

/-- `strings.SplitN(s, sep, n)` for a one-character `sep`: nil for `n = 0`,
all pieces for `n < 0`, at most `n` pieces otherwise. -/
def SplitN (s : String) (sep : Char) (n : Int) : List String :=
  if n = 0 then []
  else if n < 0 then Split s sep
  else (genSplit sep (n.toNat - 1) s.data).map String.mk

/-- `unicode.IsSpace`: the code points with the White Space property. -/
def isSpace (c : Char) : Bool :=
  let n := c.toNat
  (9 ≤ n && n ≤ 13) || n = 32 || n = 0x85 || n = 0xA0 || n = 0x1680 ||
  (0x2000 ≤ n && n ≤ 0x200A) || n = 0x2028 || n = 0x2029 || n = 0x202F ||
  n = 0x205F || n = 0x3000

/-- `strings.TrimSpace(s)`: `s` without its leading and trailing white
space. -/
def TrimSpace (s : String) : String :=
  String.mk ((s.data.dropWhile isSpace).reverse.dropWhile isSpace).reverse

end strings

namespace fleetctl

open registry (GoMap)

/-- The closure `add` of `parseRequirements`: append `val` to the values
stored under `key`, starting from the empty slice at a new key. -/
def parseRequirements.add (reqs : GoMap (List String)) (key val : String) :
    GoMap (List String) :=
  match reqs.lookup key with
  | some vals => reqs.insert key (vals ++ [val])
  | none => (reqs.insert key []).insert key ([] ++ [val])

/-- One iteration of the loop of `parseRequirements`. -/
def parseRequirements.step (reqs : GoMap (List String)) (pair : String) :
    GoMap (List String) :=
  match strings.SplitN pair '=' 2 with
  | [k, v] => parseRequirements.add reqs ("MachineMetadata" ++ strings.TrimSpace k)
      (strings.TrimSpace v)
  | _ => reqs

/-- `parseRequirements`. -/
def parseRequirements (arg : String) : GoMap (List String) :=
  (strings.Split arg ',').foldl parseRequirements.step ∅

/-- The reading of a requirement argument that the claims about
`parseRequirements` give, in their words: of the comma-separated segments,
those that contain `=`, each split at its first `=` into a key part and a
value part, as the pair of `MachineMetadata` + trimmed key part and trimmed
value part, from left to right. -/
def requirementPairs (arg : String) : List (String × String) :=
  ((arg.data.splitOn ',').filter (fun seg => '=' ∈ seg)).map (fun seg =>
    ("MachineMetadata" ++ strings.TrimSpace (String.mk (seg.takeWhile (fun c => c ≠ '='))),
     strings.TrimSpace (String.mk (seg.dropWhile (fun c => c ≠ '=')).tail)))

/-- The ordered multimap that the claims about `parseRequirements` describe:
a key maps to the values of the pairs with that key, in their order, and a
key of no pair is not mapped. -/
def requirementsSpec (arg : String) (key : String) : Option (List String) :=
  match ((requirementPairs arg).filter (fun kv => kv.1 = key)).map (fun kv => kv.2) with
  | [] => none
  | v :: vs => some (v :: vs)

/-- The number of values stored in a requirement map, over all keys. -/
def totalValues (reqs : GoMap (List String)) : Nat :=
  (reqs.entries.map (fun e => e.2.length)).sum

end fleetctl

/-! ### Package `path` of the Go standard library -/

namespace path

/-- `path.Base(p)`: the last element of `p`, trailing slashes removed first;
`.` for the empty path and `/` for a path of slashes only. -/
def Base (p : String) : String :=
  if p = "" then "."
  else
    let stripped := (p.data.reverse.dropWhile (fun c => c = '/')).reverse
    let last := (stripped.reverse.takeWhile (fun c => c ≠ '/')).reverse
    if last = [] then "/" else String.mk last

end path

namespace fleetctl

open registry (GoMap)

/-- Modelled from the spec: the type `job.JobPayload` is declared in package
`job`, outside the sources at hand.  It is the "payload" that is signed and
verified: a named unit definition; `start.go` reads its `Name`. -/
structure JobPayload where
  Name : String
  Unit : registry.unit.UnitFile
  deriving DecidableEq

/-- Modelled from the spec: the type `sign.SignatureSet` is declared in
package `sign`, outside the sources at hand.  It is the "signature" of
`sign(payload) → signature`. -/
structure SignatureSet where
  Tag : String
  Signs : List String
  deriving DecidableEq

/-- Modelled from the spec: the type `job.Job` of this command is declared in
package `job`, outside the sources at hand; a job carries what `job.NewJob`
is given: a name, the requirement set and the payload. -/
structure Job where
  Name : String
  Requirements : GoMap (List String)
  Payload : JobPayload
  deriving DecidableEq

/-- Modelled from the spec: `job.NewJob(name, requirements, payload, nil)` is
defined in package `job`, outside the sources at hand; it builds the job of
its arguments, with no state. -/
def NewJob (name : String) (requirements : GoMap (List String)) (payload : JobPayload) : Job :=
  { Name := name, Requirements := requirements, Payload := payload }

/-- The flags and arguments that `startUnitAction` reads from its
`cli.Context`: `--sign`, `--require`, `--no-block`, `--block-attempts` and
the positional arguments. -/
structure Context where
  sign : Bool
  require : String
  noBlock : Bool
  blockAttempts : Int
  Args : List String

/-- The collaborators of `startUnitAction`, each a function of the state `W`
of the world outside (registry, SSH agent, file system): the result of the
call and the state after it. -/
structure Oracles (W : Type) where
  NewSignatureCreatorFromSSHAgent : W → Option String × W
  NewSignatureVerifierFromSSHAgent : W → Option String × W
  GetPayload : String → W → Option JobPayload × W
  getJobPayloadFromFile : String → W → (Option JobPayload × Option String) × W
  CreatePayload : Option JobPayload → W → Option String × W
  SignPayload : Option JobPayload → W → (Option SignatureSet × Option String) × W
  CreateSignatureSet : Option SignatureSet → W → W
  GetSignatureSetOfPayload : String → W → Option SignatureSet × W
  VerifyPayload : Option JobPayload → Option SignatureSet → W → (Bool × Option String) × W
  CreateJob : Job → W → Option String × W
  waitForScheduledUnits : GoMap Bool → Int → W → W

/-- What a run of `startUnitAction` does to the world outside, in order: the
calls of its collaborators with their results, the lines it writes, and the
exit of the process.  `i` is the index of the argument at work. -/
inductive Call where
  | NewSignatureCreatorFromSSHAgent (err : Option String)
  | NewSignatureVerifierFromSSHAgent (err : Option String)
  | GetPayload (i : Nat) (name : String) (payload : Option JobPayload)
  | getJobPayloadFromFile (i : Nat) (v : String) (payload : Option JobPayload)
      (err : Option String)
  | CreatePayload (i : Nat) (payload : Option JobPayload) (err : Option String)
  | SignPayload (i : Nat) (payload : Option JobPayload) (s : Option SignatureSet)
      (err : Option String)
  | CreateSignatureSet (i : Nat) (s : Option SignatureSet)
  | GetSignatureSetOfPayload (i : Nat) (name : String) (s : Option SignatureSet)
  | VerifyPayload (i : Nat) (payload : Option JobPayload) (s : Option SignatureSet)
      (ok : Bool) (err : Option String)
  | CreateJob (j : Job) (err : Option String)
  | waitForScheduledUnits (jobs : GoMap Bool) (maxAttempts : Int)
  | Stdout (text : String)
  | Stderr (text : String)
  | Exit (code : Nat)
  deriving DecidableEq

/-- How a run ends: it returns, it exits with a code, or it panics on a nil
pointer. -/
inductive Outcome where
  | returned
  | exited (code : Nat)
  | panicked
  deriving DecidableEq

/-- A run of `startUnitAction`: the world after it, what it did, how it
ended. -/
structure Run (W : Type) where
  w : W
  log : List Call
  outcome : Outcome

/-- The verb `%v` applied to an `error`. -/
def errText : Option String → String
  | none => "<nil>"
  | some e => e

/-- The failure branches that print `payload.Name` and exit with code 1;
reading the name of a nil payload panics before anything is printed. -/
def failWithName (payload : Option JobPayload) (text : String → String) :
    List Call × Outcome :=
  match payload with
  | none => ([], .panicked)
  | some p => ([.Stderr (text p.Name), .Exit 1], .exited 1)

end fleetctl

namespace fleetctl

open registry (GoMap)

/-- The first block of `startUnitAction`: with `--sign`, create the signer
and the verifier, and exit with code 1 when either fails. -/
def setupSigning {W : Type} (env : Oracles W) (toSign : Bool) (w : W) :
    W × List Call × Except Outcome Unit :=
  if toSign then
    match env.NewSignatureCreatorFromSSHAgent w with
    | (some e, w1) =>
      (w1, [.NewSignatureCreatorFromSSHAgent (some e),
            .Stderr ("Failed creating SignatureCreator: " ++ e ++ "\n"), .Exit 1],
        .error (.exited 1))
    | (none, w1) =>
      match env.NewSignatureVerifierFromSSHAgent w1 with
      | (some e, w2) =>
        (w2, [.NewSignatureCreatorFromSSHAgent none, .NewSignatureVerifierFromSSHAgent (some e),
              .Stderr ("Failed creating SignatureVerifier: " ++ e ++ "\n"), .Exit 1],
          .error (.exited 1))
      | (none, w2) =>
        (w2, [.NewSignatureCreatorFromSSHAgent none, .NewSignatureVerifierFromSSHAgent none],
          .ok ())
  else (w, [], .ok ())

/-- The branch `payload == nil` of the first loop: read the payload from the
file `v`, create it in the registry and, with `--sign`, sign it and store
the signature. -/
def createPayload {W : Type} (env : Oracles W) (toSign : Bool) (i : Nat) (v : String) (w : W) :
    W × List Call × Except Outcome (Option JobPayload) :=
  match env.getJobPayloadFromFile v w with
  | ((payload, some e), w1) =>
    (w1, [.getJobPayloadFromFile i v payload (some e), .Stdout (e ++ "\n"), .Exit 1],
      .error (.exited 1))
  | ((payload, none), w1) =>
    match env.CreatePayload payload w1 with
    | (some e, w2) =>
      (w2, [.getJobPayloadFromFile i v payload none, .CreatePayload i payload (some e)] ++
          (failWithName payload
            (fun n => "Failed creating payload " ++ n ++ ": " ++ e ++ "\n")).1,
        .error (failWithName payload
            (fun n => "Failed creating payload " ++ n ++ ": " ++ e ++ "\n")).2)
    | (none, w2) =>
      if toSign then
        match env.SignPayload payload w2 with
        | ((s, some e), w3) =>
          (w3, [.getJobPayloadFromFile i v payload none, .CreatePayload i payload none,
                .SignPayload i payload s (some e)] ++
              (failWithName payload
                (fun n => "Failed creating sign for payload " ++ n ++ ": " ++ e ++ "\n")).1,
            .error (failWithName payload
                (fun n => "Failed creating sign for payload " ++ n ++ ": " ++ e ++ "\n")).2)
        | ((s, none), w3) =>
          (env.CreateSignatureSet s w3,
            [.getJobPayloadFromFile i v payload none, .CreatePayload i payload none,
             .SignPayload i payload s none, .CreateSignatureSet i s],
            .ok payload)
      else
        (w2, [.getJobPayloadFromFile i v payload none, .CreatePayload i payload none],
          .ok payload)

/-- The statement `if payload == nil ... else ...` of the first loop: keep
the payload found in the registry, or create it from the file. -/
def loadPayload {W : Type} (env : Oracles W) (toSign : Bool) (i : Nat) (v : String)
    (found : Option JobPayload) (w : W) : W × List Call × Except Outcome (Option JobPayload) :=
  match found with
  | some p => (w, [], .ok (some p))
  | none => createPayload env toSign i v w

/-- The block `if toSign` at the end of an iteration of the first loop:
fetch the signature set of the payload and verify the payload against it;
exit with code 1 when the verifier answers false or fails. -/
def verifyPayload {W : Type} (env : Oracles W) (i : Nat) (name : String)
    (payload : Option JobPayload) (w : W) : W × List Call × Except Outcome Unit :=
  match env.GetSignatureSetOfPayload name w with
  | (s, w1) =>
    match env.VerifyPayload payload s w1 with
    | ((ok, err), w2) =>
      if !ok || err != none then
        (w2, [.GetSignatureSetOfPayload i name s, .VerifyPayload i payload s ok err] ++
            (failWithName payload
              (fun n => "Failed checking payload " ++ n ++ ": " ++ errText err ++ "\n")).1,
          .error (failWithName payload
              (fun n => "Failed checking payload " ++ n ++ ": " ++ errText err ++ "\n")).2)
      else
        (w2, [.GetSignatureSetOfPayload i name s, .VerifyPayload i payload s ok err], .ok ())

/-- One iteration of the first loop of `startUnitAction`, for the argument
`v` at index `i`: the payload it stores in `payloads[i]`. -/
def processArg {W : Type} (env : Oracles W) (toSign : Bool) (i : Nat) (v : String) (w : W) :
    W × List Call × Except Outcome JobPayload :=
  match env.GetPayload (path.Base v) w with
  | (found, w1) =>
    match loadPayload env toSign i v found w1 with
    | (w2, log2, .error o) => (w2, Call.GetPayload i (path.Base v) found :: log2, .error o)
    | (w2, log2, .ok payload) =>
      match (if toSign then verifyPayload env i (path.Base v) payload w2
        else (w2, [], Except.ok ())) with
      | (w3, log3, .error o) =>
        (w3, Call.GetPayload i (path.Base v) found :: (log2 ++ log3), .error o)
      | (w3, log3, .ok _) =>
        match payload with
        | none => (w3, Call.GetPayload i (path.Base v) found :: (log2 ++ log3), .error .panicked)
        | some p => (w3, Call.GetPayload i (path.Base v) found :: (log2 ++ log3), .ok p)

/-- The first loop of `startUnitAction`, over the arguments from index `i`
on: the payloads it collects. -/
def collectPayloads {W : Type} (env : Oracles W) (toSign : Bool) :
    Nat → List String → W → W × List Call × Except Outcome (List JobPayload)
  | _, [], w => (w, [], .ok [])
  | i, v :: vs, w =>
    match processArg env toSign i v w with
    | (w1, log1, .error o) => (w1, log1, .error o)
    | (w1, log1, .ok p) =>
      match collectPayloads env toSign (i + 1) vs w1 with
      | (w2, log2, .error o) => (w2, log1 ++ log2, .error o)
      | (w2, log2, .ok ps) => (w2, log1 ++ log2, .ok (p :: ps))

/-- The second loop of `startUnitAction`: create a job for each payload, and
exit with code 1 at the first failure. -/
def createJobs {W : Type} (env : Oracles W) (requirements : GoMap (List String)) :
    List JobPayload → GoMap Bool → W → W × List Call × Except Outcome (GoMap Bool)
  | [], registeredJobs, w => (w, [], .ok registeredJobs)
  | jp :: rest, registeredJobs, w =>
    match env.CreateJob (NewJob jp.Name requirements jp) w with
    | (some e, w1) =>
      (w1, [.CreateJob (NewJob jp.Name requirements jp) (some e),
            .Stderr ("Failed creating job " ++ (NewJob jp.Name requirements jp).Name ++ ": " ++
              e ++ "\n"), .Exit 1],
        .error (.exited 1))
    | (none, w1) =>
      match createJobs env requirements rest
        (registeredJobs.insert (NewJob jp.Name requirements jp).Name true) w1 with
      | (w2, log2, r) => (w2, Call.CreateJob (NewJob jp.Name requirements jp) none :: log2, r)

/-- `startUnitAction`. -/
def startUnitAction {W : Type} (env : Oracles W) (c : Context) (w : W) : Run W :=
  match setupSigning env c.sign w with
  | (w0, log0, .error o) => { w := w0, log := log0, outcome := o }
  | (w0, log0, .ok _) =>
    match collectPayloads env c.sign 0 c.Args w0 with
    | (w1, log1, .error o) => { w := w1, log := log0 ++ log1, outcome := o }
    | (w1, log1, .ok payloads) =>
      match createJobs env (parseRequirements c.require) payloads ∅ w1 with
      | (w2, log2, .error o) => { w := w2, log := log0 ++ log1 ++ log2, outcome := o }
      | (w2, log2, .ok registeredJobs) =>
        if !c.noBlock then
          { w := env.waitForScheduledUnits registeredJobs c.blockAttempts w2,
            log := log0 ++ log1 ++ log2 ++
              [.waitForScheduledUnits registeredJobs c.blockAttempts],
            outcome := .returned }
        else { w := w2, log := log0 ++ log1 ++ log2, outcome := .returned }

end fleetctl

namespace fleetctl

/-- Modelled from the spec: the type `machine.MachineState` that this command
uses is declared in package `machine`, outside the sources at hand.  The
spec gives a machine an "identity (stable boot/agent ID), reachability
address, tag set"; `start.go` reads its `BootID`. -/
structure MachineState where
  BootID : String
  PublicIP : String
  Metadata : List (String × String)
  deriving DecidableEq

/-- A run of `checkJobTarget`: how often it asked `GetJobTarget`, the lines
it wrote to `out`, and whether it panicked on a nil pointer. -/
structure CheckRun where
  queries : Nat
  out : List String
  panicked : Bool
  deriving DecidableEq

/-- The loop of `checkJobTarget` and the line after it, with `remaining`
iterations to go and `attempts` iterations done.  `GetJobTarget k` is the
answer of the registry to the query number `k`, counted from 0;
`GetMachineState` may answer nil, and `*m` then panics before the line is
written; `machineFullLegend` is defined outside the sources at hand. -/
def checkJobTarget.loop (GetJobTarget : Nat → Option MachineState)
    (GetMachineState : String → Option MachineState)
    (machineFullLegend : MachineState → Bool → String) (jobName : String) :
    Nat → Nat → CheckRun
  | 0, attempts =>
    { queries := attempts, out := ["Job " ++ jobName ++ " still queued for scheduling\n"],
      panicked := false }
  | remaining + 1, attempts =>
    match GetJobTarget attempts with
    | some ms =>
      match GetMachineState ms.BootID with
      | some m =>
        { queries := attempts + 1,
          out := ["Job " ++ jobName ++ " scheduled to " ++ machineFullLegend m false ++ "\n"],
          panicked := false }
      | none => { queries := attempts + 1, out := [], panicked := true }
    | none => checkJobTarget.loop GetJobTarget GetMachineState machineFullLegend jobName
        remaining (attempts + 1)

/-- `checkJobTarget`: the loop `for attempts := 0; attempts < maxAttempts;
attempts++` has `maxAttempts` iterations to go at most, and none when
`maxAttempts` is not positive. -/
def checkJobTarget (GetJobTarget : Nat → Option MachineState)
    (GetMachineState : String → Option MachineState)
    (machineFullLegend : MachineState → Bool → String) (jobName : String)
    (maxAttempts : Int) : CheckRun :=
  checkJobTarget.loop GetJobTarget GetMachineState machineFullLegend jobName maxAttempts.toNat 0

/-- Sample collaborators of `startUnitAction`, on a world that counts the
calls: every payload is found in the registry, the verifier accepts every
payload but `bad.service`, and every job is created. -/
def sampleOracles : Oracles Nat :=
  { NewSignatureCreatorFromSSHAgent := fun w => (none, w + 1),
    NewSignatureVerifierFromSSHAgent := fun w => (none, w + 1),
    GetPayload := fun name w => (some { Name := name, Unit := { raw := "[Service]" } }, w + 1),
    getJobPayloadFromFile := fun _ w => ((none, some "no such file"), w + 1),
    CreatePayload := fun _ w => (none, w + 1),
    SignPayload := fun _ w => ((none, some "no identity"), w + 1),
    CreateSignatureSet := fun _ w => w + 1,
    GetSignatureSetOfPayload := fun _ w => (none, w + 1),
    VerifyPayload := fun p _ w =>
      ((decide (p.map (fun q => q.Name) ≠ some "bad.service"), none), w + 1),
    CreateJob := fun _ w => (none, w + 1),
    waitForScheduledUnits := fun _ _ w => w + 1 }

/-- A sample invocation: `fleetctl start --sign --no-block` of two units, the
second of which fails verification. -/
def sampleContext : Context :=
  { sign := true, require := "region=us-east", noBlock := true, blockAttempts := 10,
    Args := ["units/web.service", "units/bad.service"] }

/-- A sample target of a job: machine `m1`. -/
def sampleTarget : MachineState :=
  { BootID := "m1", PublicIP := "10.0.0.1", Metadata := [("region", "us-east")] }

end fleetctl

/-! ## Theorems -/

namespace registry

/-! ### Finite maps -/

/-- Deleting a key that is not stored leaves a map as it is. -/
theorem GoMap.erase_of_not_mem {V : Type} (m : GoMap V) (n : String) (h : n ∉ m) :
    m.erase n = m := by
  apply Finmap.ext_lookup
  intro x
  by_cases hx : x = n
  · subst hx
    rw [Finmap.lookup_erase, eq_comm, Finmap.lookup_eq_none]
    exact h
  · exact Finmap.lookup_erase_ne hx

/-- A stored value is the value under its key once the key is deleted and
written again. -/
theorem GoMap.insert_erase_of_lookup {V : Type} (m : GoMap V) (n : String) (v : V)
    (h : m.lookup n = some v) : (m.erase n).insert n v = m := by
  apply Finmap.ext_lookup
  intro x
  by_cases hx : x = n
  · subst hx
    rw [Finmap.lookup_insert, h]
  · rw [Finmap.lookup_insert_of_ne _ hx, Finmap.lookup_erase_ne hx]

/-- Writing a key is writing it after deleting it. -/
theorem GoMap.insert_eq_insert_erase {V : Type} (m : GoMap V) (n : String) (v : V) :
    m.insert n v = (m.erase n).insert n v := by
  apply Finmap.ext_lookup
  intro x
  by_cases hx : x = n
  · subst hx
    rw [Finmap.lookup_insert, Finmap.lookup_insert]
  · rw [Finmap.lookup_insert_of_ne _ hx, Finmap.lookup_insert_of_ne _ hx,
      Finmap.lookup_erase_ne hx]

/-- Ranging over a map after one stored value was replaced collects the same
things, for a collector that does not tell the two values apart. -/
theorem GoMap.entries_map_insert {V α : Type} (m : GoMap V) (n : String) (v w : V)
    (F : (Σ _ : String, V) → α) (h : m.lookup n = some v) (hF : F ⟨n, w⟩ = F ⟨n, v⟩) :
    (m.insert n w).entries.map F = m.entries.map F := by
  have hn : n ∉ m.erase n := Finmap.not_mem_erase_self
  have h1 : (m.insert n w).entries = ⟨n, w⟩ ::ₘ (m.erase n).entries := by
    rw [GoMap.insert_eq_insert_erase, Finmap.insert_entries_of_neg hn]
  have h2 : m.entries = ⟨n, v⟩ ::ₘ (m.erase n).entries := by
    conv_lhs => rw [← GoMap.insert_erase_of_lookup m n v h]
    rw [Finmap.insert_entries_of_neg hn]
  rw [h1, h2, Multiset.map_cons, Multiset.map_cons, hF]

/-! ### ScheduleJob -/

/-- C1, counterexample.  In `sampleRegistry` the unit `web.service` is stored
and placed on `m1`, and `m1` is in the machine list; yet
`ScheduleJob("web.service", "m2")` returns no error and moves the unit to
`m2`. -/
theorem ScheduleJob_double_schedules :
    sampleRegistry.jobs.lookup "web.service" = some sampleJob ∧
    sampleJob.TargetMachineID = "m1" ∧
    (∃ m ∈ sampleRegistry.machines, m.ID = "m1") ∧
    (sampleRegistry.ScheduleJob "web.service" "m2").2 = none ∧
    ((sampleRegistry.ScheduleJob "web.service" "m2").1.ScheduledUnit "web.service").1 =
      some { Name := "web.service", State := some "launched", TargetMachineID := "m2" } := by
  refine ⟨by decide, by decide, ⟨sampleMachine, by decide, by decide⟩, by decide, by decide⟩

/-- C1, amended.  On a stored unit `n`, whatever its present placement,
`ScheduleJob(n, m2)` returns no error, keeps `n` stored with only its
`TargetMachineID` replaced by `m2`, and `ScheduledUnit(n)` then reports
`m2`. -/
theorem ScheduleJob_overwrites (f : FakeRegistry) (n m2 : String) (j : job.Job)
    (h : f.jobs.lookup n = some j) :
    (f.ScheduleJob n m2).2 = none ∧
    (f.ScheduleJob n m2).1.jobs.lookup n = some { j with TargetMachineID := m2 } ∧
    ((f.ScheduleJob n m2).1.ScheduledUnit n).1 =
      some { Name := j.Name, State := j.State, TargetMachineID := m2 } := by
  simp [FakeRegistry.ScheduleJob, FakeRegistry.ScheduledUnit, h, Finmap.lookup_insert]

/-- C1, witness of the amended statement at `sampleRegistry`. -/
theorem ScheduleJob_overwrites_witness :
    sampleRegistry.jobs.lookup "web.service" = some sampleJob ∧
    (sampleRegistry.ScheduleJob "web.service" "m2").2 = none ∧
    (sampleRegistry.ScheduleJob "web.service" "m2").1.jobs.lookup "web.service" =
      some { sampleJob with TargetMachineID := "m2" } ∧
    ((sampleRegistry.ScheduleJob "web.service" "m2").1.ScheduledUnit "web.service").1 =
      some { Name := sampleJob.Name, State := sampleJob.State, TargetMachineID := "m2" } :=
  ⟨by decide, ScheduleJob_overwrites sampleRegistry "web.service" "m2" sampleJob (by decide)⟩

/-! ### CreateUnit -/

/-- C2.  `CreateUnit(u)` returns an error exactly when a unit named `u.Name`
is already stored, and then the registry is unchanged. -/
theorem CreateUnit_error_iff (f : FakeRegistry) (u : job.Unit) :
    ((f.CreateUnit u).2 ≠ none ↔ u.Name ∈ f.jobs) ∧
    ((f.CreateUnit u).2 ≠ none → (f.CreateUnit u).1 = f) := by
  unfold FakeRegistry.CreateUnit
  cases h : f.jobs.lookup u.Name with
  | none => simpa using Finmap.lookup_eq_none.mp h
  | some j => simpa using Finmap.mem_of_lookup_eq_some h

/-- C2, witness: `web.service` is stored in `sampleRegistry`, so creating
`sampleUnit` there fails and changes nothing. -/
theorem CreateUnit_error_iff_witness :
    sampleUnit.Name ∈ sampleRegistry.jobs ∧
    (sampleRegistry.CreateUnit sampleUnit).2 ≠ none ∧
    (sampleRegistry.CreateUnit sampleUnit).1 = sampleRegistry :=
  ⟨by decide, (CreateUnit_error_iff sampleRegistry sampleUnit).1.mpr (by decide),
    (CreateUnit_error_iff sampleRegistry sampleUnit).2
      ((CreateUnit_error_iff sampleRegistry sampleUnit).1.mpr (by decide))⟩

/-- C3, the code at the failing input.  Creating `sampleUnit`, whose target
state is `launched`, in the empty registry succeeds, and `Unit` then returns
the unit with its name and definition but with the empty target state. -/
theorem CreateUnit_drops_TargetState :
    sampleUnit.TargetState = "launched" ∧
    (NewFakeRegistry.CreateUnit sampleUnit).2 = none ∧
    ((NewFakeRegistry.CreateUnit sampleUnit).1.Unit sampleUnit.Name).1 =
      some { Name := "web.service", Unit := { raw := "[Service]" }, TargetState := "" } := by
  refine ⟨by decide, by decide, by decide⟩

/-! ### DestroyJob -/

/-- C4, counterexample.  `sampleRegistry` stores a unit state for
`web.service`; after `DestroyJob("web.service")` the unit and its placement
are gone but the unit state is still stored. -/
theorem DestroyJob_keeps_unit_state :
    ((sampleRegistry.DestroyJob "web.service").1.Unit "web.service").1 = none ∧
    ((sampleRegistry.DestroyJob "web.service").1.ScheduledUnit "web.service").1 = none ∧
    (sampleRegistry.DestroyJob "web.service").1.jobStates =
      some (Finmap.singleton "web.service" (some sampleUnitState)) ∧
    (Finmap.singleton "web.service" (some sampleUnitState) :
        GoMap (Option unit.UnitState)).lookup "web.service" = some (some sampleUnitState) := by
  refine ⟨by decide, by decide, by decide, by decide⟩

/-- C4, amended.  After `DestroyJob(n)`, which returns no error, `Unit(n)`
and `ScheduledUnit(n)` return nil; the stored unit states are unchanged. -/
theorem DestroyJob_removes_unit (f : FakeRegistry) (n : String) :
    (f.DestroyJob n).2 = none ∧
    (f.DestroyJob n).1.Unit n = (none, none) ∧
    (f.DestroyJob n).1.ScheduledUnit n = (none, none) ∧
    (f.DestroyJob n).1.jobStates = f.jobStates := by
  simp [FakeRegistry.DestroyJob, FakeRegistry.Unit, FakeRegistry.ScheduledUnit,
    Finmap.lookup_erase]

/-- C5.  `DestroyJob(n)` on a name that is not stored returns no error and
leaves the registry unchanged; a second `DestroyJob(n)` yields the same state
and the same nil result as the first. -/
theorem DestroyJob_idempotent (f : FakeRegistry) (n : String) :
    (n ∉ f.jobs → f.DestroyJob n = (f, none)) ∧
    (f.DestroyJob n).1.DestroyJob n = f.DestroyJob n := by
  constructor
  · intro h
    simp [FakeRegistry.DestroyJob, GoMap.erase_of_not_mem f.jobs n h]
  · have h : n ∉ f.jobs.erase n := Finmap.not_mem_erase_self
    simp [FakeRegistry.DestroyJob, GoMap.erase_of_not_mem (f.jobs.erase n) n h]

/-- C5, witness: `db.service` is not stored in `sampleRegistry`. -/
theorem DestroyJob_idempotent_witness :
    "db.service" ∉ sampleRegistry.jobs ∧
    sampleRegistry.DestroyJob "db.service" = (sampleRegistry, none) ∧
    (sampleRegistry.DestroyJob "web.service").1.DestroyJob "web.service" =
      sampleRegistry.DestroyJob "web.service" :=
  ⟨by decide, (DestroyJob_idempotent sampleRegistry "db.service").1 (by decide),
    (DestroyJob_idempotent sampleRegistry "web.service").2⟩

/-! ### SetJobTargetState -/

/-- C6.  `SetJobTargetState(n, s)` returns an error exactly when no unit
named `n` is stored, and then the registry is unchanged, so that no unit
named `n` comes into being. -/
theorem SetJobTargetState_error_iff (f : FakeRegistry) (n : String) (s : job.JobState) :
    ((f.SetJobTargetState n s).2 ≠ none ↔ n ∉ f.jobs) ∧
    ((f.SetJobTargetState n s).2 ≠ none →
      (f.SetJobTargetState n s).1 = f ∧ n ∉ (f.SetJobTargetState n s).1.jobs) := by
  unfold FakeRegistry.SetJobTargetState
  cases h : f.jobs.lookup n with
  | none => simpa using Finmap.lookup_eq_none.mp h
  | some j => simpa using Finmap.mem_of_lookup_eq_some h

/-- C6, witness: `db.service` is not stored in `sampleRegistry`, so setting
its target state fails and changes nothing. -/
theorem SetJobTargetState_error_iff_witness :
    "db.service" ∉ sampleRegistry.jobs ∧
    (sampleRegistry.SetJobTargetState "db.service" "launched").2 ≠ none ∧
    (sampleRegistry.SetJobTargetState "db.service" "launched").1 = sampleRegistry ∧
    "db.service" ∉ (sampleRegistry.SetJobTargetState "db.service" "launched").1.jobs :=
  ⟨by decide,
    (SetJobTargetState_error_iff sampleRegistry "db.service" "launched").1.mpr (by decide),
    (SetJobTargetState_error_iff sampleRegistry "db.service" "launched").2
      ((SetJobTargetState_error_iff sampleRegistry "db.service" "launched").1.mpr (by decide))⟩

/-- C7.  On a stored unit `n`, `SetJobTargetState(n, s1)` followed by
`SetJobTargetState(n, s2)` yields the state of `SetJobTargetState(n, s2)`
alone, both calls return no error, and `Unit(n)` then reports the target
state `s2` next to the unchanged name and definition. -/
theorem SetJobTargetState_last_writer_wins (f : FakeRegistry) (n : String)
    (s1 s2 : job.JobState) (j : job.Job) (h : f.jobs.lookup n = some j) :
    (f.SetJobTargetState n s1).2 = none ∧
    ((f.SetJobTargetState n s1).1.SetJobTargetState n s2).2 = none ∧
    ((f.SetJobTargetState n s1).1.SetJobTargetState n s2).1 = (f.SetJobTargetState n s2).1 ∧
    (((f.SetJobTargetState n s1).1.SetJobTargetState n s2).1.Unit n).1 =
      some { Name := j.Name, Unit := j.Unit, TargetState := s2 } := by
  simp [FakeRegistry.SetJobTargetState, FakeRegistry.Unit, h, Finmap.lookup_insert,
    Finmap.insert_insert]

/-- C7, witness at `sampleRegistry`, whose `web.service` is launched. -/
theorem SetJobTargetState_last_writer_wins_witness :
    sampleRegistry.jobs.lookup "web.service" = some sampleJob ∧
    (sampleRegistry.SetJobTargetState "web.service" "inactive").2 = none ∧
    (((sampleRegistry.SetJobTargetState "web.service" "inactive").1).SetJobTargetState
      "web.service" "loaded").2 = none ∧
    (((sampleRegistry.SetJobTargetState "web.service" "inactive").1).SetJobTargetState
      "web.service" "loaded").1 = (sampleRegistry.SetJobTargetState "web.service" "loaded").1 ∧
    ((((sampleRegistry.SetJobTargetState "web.service" "inactive").1).SetJobTargetState
      "web.service" "loaded").1.Unit "web.service").1 =
      some { Name := sampleJob.Name, Unit := sampleJob.Unit, TargetState := "loaded" } :=
  ⟨by decide, SetJobTargetState_last_writer_wins sampleRegistry "web.service" "inactive"
    "loaded" sampleJob (by decide)⟩

/-! ### SaveUnitState -/

/-- C8, counterexample.  With `web.service` placed on `m1`, and with
`web.service` not stored at all, saving a unit state that machine `m2`
reports stores it all the same. -/
theorem SaveUnitState_accepts_stale_writer :
    sampleUnitState.MachineID = "m2" ∧
    (((NewFakeRegistry.SetJobs [sampleJob]).ScheduledUnit "web.service").1.map
      (fun su => su.TargetMachineID)) = some "m1" ∧
    (NewFakeRegistry.SetJobs [sampleJob]).jobStates = some ∅ ∧
    ((NewFakeRegistry.SetJobs [sampleJob]).SaveUnitState "web.service"
      (some sampleUnitState)).map (fun g => g.jobStates) =
      some (some (Finmap.singleton "web.service" (some sampleUnitState))) ∧
    (NewFakeRegistry.Unit "web.service").1 = none ∧
    NewFakeRegistry.jobStates = some ∅ ∧
    (NewFakeRegistry.SaveUnitState "web.service" (some sampleUnitState)).map
      (fun g => g.jobStates) =
      some (some (Finmap.singleton "web.service" (some sampleUnitState))) ∧
    (Finmap.singleton "web.service" (some sampleUnitState) :
        GoMap (Option unit.UnitState)) ≠ ∅ := by
  refine ⟨by decide, by decide, by decide, by decide, by decide, by decide, by decide,
    by decide⟩

/-- C8, amended.  On a registry whose `jobStates` map is allocated,
`SaveUnitState(n, s)` does not panic and stores `s` under `n`, whether or not
`n` is stored or placed on the machine that `s` reports; nothing else
changes. -/
theorem SaveUnitState_overwrites (f : FakeRegistry) (n : String) (s : Option unit.UnitState)
    (js : GoMap (Option unit.UnitState)) (h : f.jobStates = some js) :
    f.SaveUnitState n s = some { f with jobStates := some (js.insert n s) } ∧
    (js.insert n s).lookup n = some s := by
  simp [FakeRegistry.SaveUnitState, h, Finmap.lookup_insert]

/-- C8, witness: a stale report for the placed unit of `sampleRegistry`. -/
theorem SaveUnitState_overwrites_witness :
    sampleRegistry.jobStates = some (Finmap.singleton "web.service" (some sampleUnitState)) ∧
    sampleRegistry.SaveUnitState "web.service" none =
      some { sampleRegistry with
        jobStates := some (Finmap.insert "web.service" none
          (Finmap.singleton "web.service" (some sampleUnitState))) } ∧
    ((Finmap.singleton "web.service" (some sampleUnitState) :
        GoMap (Option unit.UnitState)).insert "web.service" none).lookup "web.service" =
      some none :=
  ⟨by decide, SaveUnitState_overwrites sampleRegistry "web.service" none
    (Finmap.singleton "web.service" (some sampleUnitState)) (by decide)⟩

/-! ### Listings -/

/-- Replacing the job stored under `n` by a job of the same `Name` keeps the
sorted names. -/
theorem sortedNames_insert (f : FakeRegistry) (n : String) (j j' : job.Job)
    (h : f.jobs.lookup n = some j) (hN : j'.Name = j.Name) :
    ({ f with jobs := f.jobs.insert n j' } : FakeRegistry).sortedNames = f.sortedNames := by
  unfold FakeRegistry.sortedNames
  simp only
  rw [GoMap.entries_map_insert f.jobs n j j' (fun e => e.2.Name) h hN]

/-- Indexing the jobs after the job under `n` was replaced. -/
theorem jobsIndex_insert (f : FakeRegistry) (n k : String) (j j' : job.Job)
    (h : f.jobs.lookup n = some j) :
    ({ f with jobs := f.jobs.insert n j' } : FakeRegistry).jobsIndex k =
      if k = n then j' else f.jobsIndex k := by
  unfold FakeRegistry.jobsIndex
  by_cases hk : k = n
  · subst hk
    simp [Finmap.lookup_insert]
  · simp [hk, Finmap.lookup_insert_of_ne _ hk]

/-- Indexing the jobs at a stored key. -/
theorem jobsIndex_of_lookup (f : FakeRegistry) (n : String) (j : job.Job)
    (h : f.jobs.lookup n = some j) : f.jobsIndex n = j := by
  simp [FakeRegistry.jobsIndex, h]

/-- Replacing the job stored under `n` by one with the same name, state and
target machine keeps the result of `Schedule()`. -/
theorem Schedule_insert (f : FakeRegistry) (n : String) (j j' : job.Job)
    (h : f.jobs.lookup n = some j) (hN : j'.Name = j.Name) (hS : j'.State = j.State)
    (hM : j'.TargetMachineID = j.TargetMachineID) :
    ({ f with jobs := f.jobs.insert n j' } : FakeRegistry).Schedule = f.Schedule := by
  simp only [FakeRegistry.Schedule]
  rw [sortedNames_insert f n j j' h hN]
  congr 1
  apply List.map_congr_left
  intro k _
  rw [jobsIndex_insert f n k j j' h]
  by_cases hk : k = n
  · subst hk
    simp [jobsIndex_of_lookup f k j h, hN, hS, hM]
  · simp [hk]

/-- Replacing the job stored under `n` by one with the same name, definition
and target state keeps the result of `Units()`. -/
theorem Units_insert (f : FakeRegistry) (n : String) (j j' : job.Job)
    (h : f.jobs.lookup n = some j) (hN : j'.Name = j.Name) (hU : j'.Unit = j.Unit)
    (hT : j'.TargetState = j.TargetState) :
    ({ f with jobs := f.jobs.insert n j' } : FakeRegistry).Units = f.Units := by
  simp only [FakeRegistry.Units]
  rw [sortedNames_insert f n j j' h hN]
  congr 1
  apply List.map_congr_left
  intro k _
  rw [jobsIndex_insert f n k j j' h]
  by_cases hk : k = n
  · subst hk
    simp [jobsIndex_of_lookup f k j h, hN, hU, hT]
  · simp [hk]

/-- C10.  `SetJobTargetState(n, s)` leaves the result of `Schedule()`
unchanged and `ScheduleJob(n, m)` leaves the result of `Units()` unchanged,
in every registry state and whether the call succeeds or fails. -/
theorem target_state_and_placement_independent (f : FakeRegistry) (n : String)
    (s : job.JobState) (m : String) :
    (f.SetJobTargetState n s).1.Schedule = f.Schedule ∧
    (f.ScheduleJob n m).1.Units = f.Units := by
  constructor
  · unfold FakeRegistry.SetJobTargetState
    cases h : f.jobs.lookup n with
    | none => rfl
    | some j => exact Schedule_insert f n j { j with TargetState := s } h rfl rfl rfl
  · unfold FakeRegistry.ScheduleJob
    cases h : f.jobs.lookup n with
    | none => rfl
    | some j => exact Units_insert f n j { j with TargetMachineID := m } h rfl rfl rfl

/-! ### The jobs map of a reachable registry -/

/-- Storing a job under its own name keeps every key the name of its job. -/
theorem GoMap.keysAreNames_insert (m : GoMap job.Job)
    (hm : ∀ (k : String) (j : job.Job), m.lookup k = some j → j.Name = k)
    (j' : job.Job) (k : String) (j : job.Job)
    (h : (m.insert j'.Name j').lookup k = some j) : j.Name = k := by
  by_cases hk : k = j'.Name
  · subst hk
    rw [Finmap.lookup_insert] at h
    cases h
    rfl
  · rw [Finmap.lookup_insert_of_ne _ hk] at h
    exact hm k j h

/-- The loop of `SetJobs` keeps every key the name of its job. -/
theorem GoMap.keysAreNames_foldl (jobs : List job.Job) (m : GoMap job.Job)
    (hm : ∀ (k : String) (j : job.Job), m.lookup k = some j → j.Name = k)
    (k : String) (j : job.Job)
    (h : (jobs.foldl (fun m j => m.insert j.Name j) m).lookup k = some j) : j.Name = k := by
  induction jobs generalizing m with
  | nil => exact hm k j h
  | cons a rest ih =>
    exact ih (m.insert a.Name a) (fun k j => GoMap.keysAreNames_insert m hm a k j) h

/-- The invariant holds in the registry `NewFakeRegistry` returns. -/
theorem KeysAreNames_new : KeysAreNames NewFakeRegistry := by
  intro k j h
  simp [NewFakeRegistry, Finmap.lookup_empty] at h

/-- Every public operation keeps the invariant. -/
theorem KeysAreNames_apply (f g : FakeRegistry) (op : Op) (hf : KeysAreNames f)
    (h : op.apply f = some g) : KeysAreNames g := by
  cases op with
  | SetMachines machines => cases h; exact hf
  | SetJobs jobs =>
    cases h
    intro k j hk
    exact GoMap.keysAreNames_foldl jobs ∅ (fun k j h => by simp [Finmap.lookup_empty] at h) k j hk
  | SetUnitStates jobStates => cases h; exact hf
  | SetUnits units => cases h; exact hf
  | SetLatestVersion v => cases h; exact hf
  | CreateUnit u =>
    simp only [Op.apply, FakeRegistry.CreateUnit, Option.some.injEq] at h
    subst h
    cases hu : f.jobs.lookup u.Name with
    | some j0 => simpa [hu] using hf
    | none =>
      intro k j hk
      simp only [hu] at hk
      exact GoMap.keysAreNames_insert f.jobs hf
        { job.Job.zero with Name := u.Name, Unit := u.Unit } k j hk
  | DestroyJob name =>
    cases h
    intro k j hk
    simp only [FakeRegistry.DestroyJob] at hk
    by_cases hkn : k = name
    · subst hkn
      rw [Finmap.lookup_erase] at hk
      cases hk
    · rw [Finmap.lookup_erase_ne hkn] at hk
      exact hf k j hk
  | SetJobTargetState name target =>
    simp only [Op.apply, FakeRegistry.SetJobTargetState, Option.some.injEq] at h
    subst h
    cases hu : f.jobs.lookup name with
    | none => simpa [hu] using hf
    | some j0 =>
      intro k j hk
      simp only [hu] at hk
      have hn : j0.Name = name := hf name j0 hu
      subst hn
      exact GoMap.keysAreNames_insert f.jobs hf { j0 with TargetState := target } k j hk
  | ScheduleJob name machID =>
    simp only [Op.apply, FakeRegistry.ScheduleJob, Option.some.injEq] at h
    subst h
    cases hu : f.jobs.lookup name with
    | none => simpa [hu] using hf
    | some j0 =>
      intro k j hk
      simp only [hu] at hk
      have hn : j0.Name = name := hf name j0 hu
      subst hn
      exact GoMap.keysAreNames_insert f.jobs hf { j0 with TargetMachineID := machID } k j hk
  | SaveUnitState jobName unitState =>
    simp only [Op.apply, FakeRegistry.SaveUnitState] at h
    cases hjs : f.jobStates with
    | none => simp [hjs] at h
    | some js =>
      simp only [hjs, Option.some.injEq] at h
      subst h
      exact hf
  | RemoveUnitState jobName => cases h; exact hf
  | JobHeartbeat jobName agentMachID ttl => cases h; exact hf
  | ClearJobHeartbeat jobName => cases h; exact hf

/-- Every run of public operations keeps the invariant. -/
theorem KeysAreNames_run (ops : List Op) (f g : FakeRegistry) (hf : KeysAreNames f)
    (h : run f ops = some g) : KeysAreNames g := by
  induction ops generalizing f with
  | nil =>
    simp only [run, Option.some.injEq] at h
    subst h
    exact hf
  | cons op rest ih =>
    simp only [run] at h
    cases hop : op.apply f with
    | none => simp [hop] at h
    | some f' =>
      simp only [hop, Option.some_bind] at h
      exact ih f' (KeysAreNames_apply f f' op hf hop) h

/-- Every reachable registry satisfies the invariant. -/
theorem KeysAreNames_of_reachable (f : FakeRegistry) (hf : Reachable f) : KeysAreNames f := by
  obtain ⟨ops, h⟩ := hf
  exact KeysAreNames_run ops NewFakeRegistry f KeysAreNames_new h

/-- Under the invariant, the names collected by ranging over the jobs map
are its keys. -/
theorem names_eq_keys (f : FakeRegistry) (hf : KeysAreNames f) :
    f.jobs.entries.map (fun e => e.2.Name) = f.jobs.entries.keys := by
  unfold Multiset.keys
  apply Multiset.map_congr rfl
  intro e he
  exact hf e.1 e.2 (Finmap.mem_lookup_iff.mpr he)

/-- Under the invariant, a name occurs among the sorted names once when it is
stored and not at all otherwise. -/
theorem count_sortedNames (f : FakeRegistry) (hf : KeysAreNames f) (n : String) :
    f.sortedNames.count n = if n ∈ f.jobs then 1 else 0 := by
  unfold FakeRegistry.sortedNames
  rw [← Multiset.coe_count, Multiset.sort_eq, names_eq_keys f hf]
  have hnd : f.jobs.entries.keys.Nodup := Multiset.nodup_keys.mpr f.jobs.nodupKeys
  by_cases hn : n ∈ f.jobs
  · rw [if_pos hn]
    exact Multiset.count_eq_one_of_mem hnd (Finmap.mem_def.mp hn)
  · rw [if_neg hn]
    exact Multiset.count_eq_zero_of_not_mem (fun hmem => hn (Finmap.mem_def.mpr hmem))

/-- Under the invariant, the names of the entries of `Schedule()` are the
sorted names. -/
theorem Schedule_names (f : FakeRegistry) (hf : KeysAreNames f) :
    f.Schedule.1.map (fun su => su.Name) = f.sortedNames := by
  simp only [FakeRegistry.Schedule, List.map_map]
  conv_rhs => rw [← List.map_id f.sortedNames]
  apply List.map_congr_left
  intro k hk
  have hk' : k ∈ f.jobs.entries.map (fun e => e.2.Name) := by
    unfold FakeRegistry.sortedNames at hk
    exact (Multiset.mem_sort _).mp hk
  rw [names_eq_keys f hf] at hk'
  obtain ⟨j, hj⟩ := Finmap.mem_iff.mp (Finmap.mem_def.mpr hk')
  simp [jobsIndex_of_lookup f k j hj, hf k j hj]

/-- C9.  In every registry state reachable from `NewFakeRegistry` through the
public operations, `Schedule()` returns no error and, for every name `n`,
its list has exactly one entry named `n` when `Unit(n)` is non-nil and none
otherwise; two entries of the same name are therefore the same entry, with
the same target machine. -/
theorem Schedule_one_entry_per_unit (f : FakeRegistry) (hf : Reachable f) (n : String) :
    f.Schedule.2 = none ∧
    ((f.Unit n).1 ≠ none → f.Schedule.1.countP (fun su => su.Name = n) = 1) ∧
    ((f.Unit n).1 = none → f.Schedule.1.countP (fun su => su.Name = n) = 0) ∧
    (∀ su1 ∈ f.Schedule.1, ∀ su2 ∈ f.Schedule.1, su1.Name = su2.Name →
      su1.TargetMachineID = su2.TargetMachineID) := by
  have hinv : KeysAreNames f := KeysAreNames_of_reachable f hf
  have hcount : f.Schedule.1.countP (fun su => su.Name = n) =
      if n ∈ f.jobs then 1 else 0 := by
    rw [← count_sortedNames f hinv n, ← Schedule_names f hinv, List.count, List.countP_map]
    apply List.countP_congr
    intro su _
    simp [Function.comp]
  have hunit : (f.Unit n).1 = none ↔ n ∉ f.jobs := by
    unfold FakeRegistry.Unit
    cases h : f.jobs.lookup n with
    | none => simpa using Finmap.lookup_eq_none.mp h
    | some j => simpa using Finmap.mem_of_lookup_eq_some h
  refine ⟨rfl, ?_, ?_, ?_⟩
  · intro h
    have hn : n ∈ f.jobs := by
      by_contra hc
      exact h (hunit.mpr hc)
    rw [hcount, if_pos hn]
  · intro h
    rw [hcount, if_neg (hunit.mp h)]
  · intro su1 h1 su2 h2 hname
    have hnd : (f.Schedule.1.map (fun su => su.Name)).Nodup := by
      rw [Schedule_names f hinv]
      have hs : (f.sortedNames : Multiset String) = f.jobs.entries.keys := by
        unfold FakeRegistry.sortedNames
        rw [Multiset.sort_eq, names_eq_keys f hinv]
      have hk : f.jobs.entries.keys.Nodup := Multiset.nodup_keys.mpr f.jobs.nodupKeys
      rw [← hs] at hk
      exact Multiset.coe_nodup.mp hk
    rw [List.inj_on_of_nodup_map hnd h1 h2 hname]

/-- C9, witness: the registry that `SetJobs` builds from a job list naming
`web.service` twice is reachable, and lists `web.service` once. -/
theorem Schedule_one_entry_per_unit_witness :
    Reachable (NewFakeRegistry.SetJobs duplicateJobs) ∧
    ((NewFakeRegistry.SetJobs duplicateJobs).Unit "web.service").1 ≠ none ∧
    (NewFakeRegistry.SetJobs duplicateJobs).Schedule.1.countP
      (fun su => su.Name = "web.service") = 1 :=
  ⟨⟨[.SetJobs duplicateJobs], by decide⟩, by decide,
    (Schedule_one_entry_per_unit (NewFakeRegistry.SetJobs duplicateJobs)
      ⟨[.SetJobs duplicateJobs], by decide⟩ "web.service").2.1 (by decide)⟩

/-! ### Placement of stored and of new units -/

/-- C11.  On a unit `n` stored with an empty `TargetMachineID`,
`ScheduleJob(n, m)` returns no error and `ScheduledUnit(n)` then reports the
target machine `m`; on a name that is not stored it returns an error and
leaves the registry unchanged. -/
theorem ScheduleJob_assigns_unplaced (f : FakeRegistry) (n m : String) :
    (∀ j : job.Job, f.jobs.lookup n = some j → j.TargetMachineID = "" →
      (f.ScheduleJob n m).2 = none ∧
      ((f.ScheduleJob n m).1.ScheduledUnit n).2 = none ∧
      ((f.ScheduleJob n m).1.ScheduledUnit n).1.map (fun su => su.TargetMachineID) =
        some m) ∧
    (n ∉ f.jobs → (f.ScheduleJob n m).2 ≠ none ∧ (f.ScheduleJob n m).1 = f) := by
  constructor
  · intro j h _
    simp [FakeRegistry.ScheduleJob, FakeRegistry.ScheduledUnit, h, Finmap.lookup_insert]
  · intro h
    simp [FakeRegistry.ScheduleJob, Finmap.lookup_eq_none.mpr h]

/-- C11, witness: the unit that `CreateUnit(sampleUnit)` stores in the empty
registry is unplaced and gets placed on `m1`; `db.service` is not stored. -/
theorem ScheduleJob_assigns_unplaced_witness :
    (NewFakeRegistry.CreateUnit sampleUnit).1.jobs.lookup "web.service" =
      some { job.Job.zero with Name := "web.service", Unit := sampleUnit.Unit } ∧
    (((NewFakeRegistry.CreateUnit sampleUnit).1.ScheduleJob "web.service" "m1").2 = none ∧
      ((((NewFakeRegistry.CreateUnit sampleUnit).1.ScheduleJob "web.service" "m1").1).ScheduledUnit
        "web.service").2 = none ∧
      ((((NewFakeRegistry.CreateUnit sampleUnit).1.ScheduleJob "web.service" "m1").1).ScheduledUnit
        "web.service").1.map (fun su => su.TargetMachineID) = some "m1") ∧
    "db.service" ∉ sampleRegistry.jobs ∧
    ((sampleRegistry.ScheduleJob "db.service" "m1").2 ≠ none ∧
      (sampleRegistry.ScheduleJob "db.service" "m1").1 = sampleRegistry) :=
  ⟨by decide,
    (ScheduleJob_assigns_unplaced (NewFakeRegistry.CreateUnit sampleUnit).1 "web.service" "m1").1
      { job.Job.zero with Name := "web.service", Unit := sampleUnit.Unit } (by decide) (by decide),
    by decide,
    (ScheduleJob_assigns_unplaced sampleRegistry "db.service" "m1").2 (by decide)⟩

/-- C12.  When no unit named `u.Name` is stored, `CreateUnit(u)` succeeds and
`ScheduledUnit(u.Name)` then returns a record named `u.Name` with no state
and the empty target machine ID, whatever the stored unit states are. -/
theorem CreateUnit_unscheduled (f : FakeRegistry) (u : job.Unit) (h : u.Name ∉ f.jobs) :
    (f.CreateUnit u).2 = none ∧
    (f.CreateUnit u).1.ScheduledUnit u.Name =
      (some { Name := u.Name, State := none, TargetMachineID := "" }, none) := by
  simp [FakeRegistry.CreateUnit, FakeRegistry.ScheduledUnit, Finmap.lookup_eq_none.mpr h,
    Finmap.lookup_insert, job.Job.zero]

/-- C12, witness: `web.service`, placed on `m1` with a stored unit state, is
destroyed and then created again; the new unit has no target machine. -/
theorem CreateUnit_unscheduled_witness :
    (sampleRegistry.ScheduledUnit "web.service").1.map (fun su => su.TargetMachineID) =
      some "m1" ∧
    (sampleRegistry.DestroyJob "web.service").1.jobStatesIndex "web.service" =
      some sampleUnitState ∧
    sampleUnit.Name ∉ (sampleRegistry.DestroyJob "web.service").1.jobs ∧
    ((sampleRegistry.DestroyJob "web.service").1.CreateUnit sampleUnit).2 = none ∧
    ((sampleRegistry.DestroyJob "web.service").1.CreateUnit sampleUnit).1.ScheduledUnit
      sampleUnit.Name =
      (some { Name := sampleUnit.Name, State := none, TargetMachineID := "" }, none) :=
  ⟨by decide, by decide, by decide,
    CreateUnit_unscheduled (sampleRegistry.DestroyJob "web.service").1 sampleUnit (by decide)⟩

/-! ### Frames -/

/-- The four single-unit reads and the two global reads depend only on the
job stored under the name, the machine list and the version. -/
theorem reads_eq_of_lookup_eq (f g : FakeRegistry) (k : String)
    (hj : g.jobs.lookup k = f.jobs.lookup k) (hm : g.machines = f.machines)
    (hv : g.version = f.version) :
    g.Unit k = f.Unit k ∧ g.ScheduledUnit k = f.ScheduledUnit k ∧
    g.Machines = f.Machines ∧ g.LatestVersion = f.LatestVersion := by
  refine ⟨?_, ?_, ?_, ?_⟩
  · simp only [FakeRegistry.Unit, hj]
  · unfold FakeRegistry.ScheduledUnit
    rw [hj]
  · simp only [FakeRegistry.Machines, hm]
  · simp only [FakeRegistry.LatestVersion, hv]

/-- C18.  For names `n ≠ n'`, each of `CreateUnit(u)` with `u.Name = n`,
`DestroyJob(n)`, `SetJobTargetState(n, s)` and `ScheduleJob(n, m)` leaves the
results of `Unit(n')`, `ScheduledUnit(n')`, `Machines()` and
`LatestVersion()` unchanged. -/
theorem mutations_touch_only_named_unit (f : FakeRegistry) (n n' : String) (hne : n ≠ n')
    (u : job.Unit) (hu : u.Name = n) (s : job.JobState) (m : String) :
    ∀ g ∈ [(f.CreateUnit u).1, (f.DestroyJob n).1, (f.SetJobTargetState n s).1,
        (f.ScheduleJob n m).1],
      g.Unit n' = f.Unit n' ∧ g.ScheduledUnit n' = f.ScheduledUnit n' ∧
      g.Machines = f.Machines ∧ g.LatestVersion = f.LatestVersion := by
  have hne' : n' ≠ n := fun h => hne h.symm
  intro g hg
  simp only [List.mem_cons, List.mem_singleton, List.not_mem_nil, or_false] at hg
  rcases hg with rfl | rfl | rfl | rfl
  · apply reads_eq_of_lookup_eq
    · unfold FakeRegistry.CreateUnit
      subst hu
      cases h : f.jobs.lookup u.Name with
      | none => exact Finmap.lookup_insert_of_ne _ hne'
      | some j => rfl
    · unfold FakeRegistry.CreateUnit
      cases f.jobs.lookup u.Name <;> rfl
    · unfold FakeRegistry.CreateUnit
      cases f.jobs.lookup u.Name <;> rfl
  · apply reads_eq_of_lookup_eq
    · exact Finmap.lookup_erase_ne hne'
    · rfl
    · rfl
  · apply reads_eq_of_lookup_eq
    · unfold FakeRegistry.SetJobTargetState
      cases h : f.jobs.lookup n with
      | none => rfl
      | some j => exact Finmap.lookup_insert_of_ne _ hne'
    · unfold FakeRegistry.SetJobTargetState
      cases f.jobs.lookup n <;> rfl
    · unfold FakeRegistry.SetJobTargetState
      cases f.jobs.lookup n <;> rfl
  · apply reads_eq_of_lookup_eq
    · unfold FakeRegistry.ScheduleJob
      cases h : f.jobs.lookup n with
      | none => rfl
      | some j => exact Finmap.lookup_insert_of_ne _ hne'
    · unfold FakeRegistry.ScheduleJob
      cases f.jobs.lookup n <;> rfl
    · unfold FakeRegistry.ScheduleJob
      cases f.jobs.lookup n <;> rfl

/-- C18, witness: scheduling `db.service`, a second stored unit, on `m2`
leaves the reads of `web.service` and the global reads as they were. -/
theorem mutations_touch_only_named_unit_witness :
    "db.service" ≠ "web.service" ∧
    ((sampleRegistry.CreateUnit { sampleUnit with Name := "db.service" }).1.ScheduleJob
      "db.service" "m2").1.ScheduledUnit "web.service" =
      (sampleRegistry.CreateUnit { sampleUnit with Name := "db.service" }).1.ScheduledUnit
        "web.service" :=
  ⟨by decide,
    (mutations_touch_only_named_unit
      (sampleRegistry.CreateUnit { sampleUnit with Name := "db.service" }).1
      "db.service" "web.service" (by decide) { sampleUnit with Name := "db.service" } rfl
      "loaded" "m2" _ (by simp)).2.1⟩

/-- C19.  Two registry states that differ only in their stored unit states
give equal results of `ScheduledUnit(n)`, `Schedule()`, `Unit(n)` and
`Units()`; and `SaveUnitState`, `RemoveUnitState` and `SetUnitStates` leave
the result of `ScheduledUnit(n)` as it was. -/
theorem unit_states_unobservable (f g : FakeRegistry) (n : String)
    (_hm : g.machines = f.machines) (hj : g.jobs = f.jobs) (_hu : g.units = f.units)
    (_hv : g.version = f.version) :
    (g.ScheduledUnit n = f.ScheduledUnit n ∧ g.Schedule = f.Schedule ∧
      g.Unit n = f.Unit n ∧ g.Units = f.Units) ∧
    (∀ (k : String) (s : Option unit.UnitState) (f' : FakeRegistry),
      f.SaveUnitState k s = some f' → f'.ScheduledUnit n = f.ScheduledUnit n) ∧
    (∀ k : String, (f.RemoveUnitState k).1.ScheduledUnit n = f.ScheduledUnit n) ∧
    (∀ js : Option (GoMap (Option unit.UnitState)),
      (f.SetUnitStates js).ScheduledUnit n = f.ScheduledUnit n) := by
  have key : ∀ a b : FakeRegistry, a.jobs = b.jobs → a.ScheduledUnit n = b.ScheduledUnit n := by
    intro a b hab
    unfold FakeRegistry.ScheduledUnit
    rw [hab]
  refine ⟨⟨key g f hj, ?_, ?_, ?_⟩, ?_, ?_, ?_⟩
  · simp only [FakeRegistry.Schedule, FakeRegistry.sortedNames, FakeRegistry.jobsIndex, hj]
  · simp only [FakeRegistry.Unit, hj]
  · simp only [FakeRegistry.Units, FakeRegistry.sortedNames, FakeRegistry.jobsIndex, hj]
  · intro k s f' h
    unfold FakeRegistry.SaveUnitState at h
    cases hjs : f.jobStates with
    | none => simp [hjs] at h
    | some js =>
      simp only [hjs, Option.some.injEq] at h
      subst h
      exact key _ _ rfl
  · intro k
    exact key _ _ rfl
  · intro js
    exact key _ _ rfl

/-- C19, witness: `sampleRegistry` and the same registry with the `nil` map
of unit states. -/
theorem unit_states_unobservable_witness :
    (sampleRegistry.SetUnitStates none).jobStates ≠ sampleRegistry.jobStates ∧
    (sampleRegistry.SetUnitStates none).Schedule = sampleRegistry.Schedule ∧
    (sampleRegistry.SetUnitStates none).ScheduledUnit "web.service" =
      sampleRegistry.ScheduledUnit "web.service" :=
  ⟨by decide,
    (unit_states_unobservable sampleRegistry (sampleRegistry.SetUnitStates none) "web.service"
      rfl rfl rfl rfl).1.2.1,
    (unit_states_unobservable sampleRegistry (sampleRegistry.SetUnitStates none) "web.service"
      rfl rfl rfl rfl).1.1⟩

/-! ### Listings of a reachable registry -/

/-- Under the invariant, the sorted names are the stored keys. -/
theorem mem_sortedNames (f : FakeRegistry) (hf : KeysAreNames f) (k : String) :
    k ∈ f.sortedNames ↔ k ∈ f.jobs := by
  unfold FakeRegistry.sortedNames
  rw [Multiset.mem_sort, names_eq_keys f hf, Finmap.mem_def]

/-- Under the invariant, the sorted names are strictly ascending. -/
theorem sortedNames_strict (f : FakeRegistry) (hf : KeysAreNames f) :
    f.sortedNames.Sorted (· < ·) := by
  have hs : (f.sortedNames : Multiset String) = f.jobs.entries.keys := by
    unfold FakeRegistry.sortedNames
    rw [Multiset.sort_eq, names_eq_keys f hf]
  have hk : f.jobs.entries.keys.Nodup := Multiset.nodup_keys.mpr f.jobs.nodupKeys
  rw [← hs] at hk
  have hle : f.sortedNames.Sorted (· ≤ ·) := by
    unfold FakeRegistry.sortedNames
    exact Multiset.sort_sorted _ _
  exact hle.lt_of_le (Multiset.coe_nodup.mp hk)

/-- Under the invariant, there are as many sorted names as stored units. -/
theorem length_sortedNames (f : FakeRegistry) (hf : KeysAreNames f) :
    f.sortedNames.length = f.jobs.keys.card := by
  unfold FakeRegistry.sortedNames
  rw [Multiset.length_sort, names_eq_keys f hf]
  rfl

/-- Under the invariant, the names of the entries of `Units()` are the
sorted names. -/
theorem Units_names (f : FakeRegistry) (hf : KeysAreNames f) :
    f.Units.1.map (fun u => u.Name) = f.sortedNames := by
  simp only [FakeRegistry.Units, List.map_map]
  conv_rhs => rw [← List.map_id f.sortedNames]
  apply List.map_congr_left
  intro k hk
  obtain ⟨j, hj⟩ := Finmap.mem_iff.mp ((mem_sortedNames f hf k).mp hk)
  simp [jobsIndex_of_lookup f k j hj, hf k j hj]

/-- C16.  In every reachable registry state, `Units()` and `Schedule()`
list their entries in strictly ascending order of `Name`, each has as many
entries as there are stored units, and the entries at the same position
have the same `Name`. -/
theorem listings_sorted_and_aligned (f : FakeRegistry) (hf : Reachable f) :
    (f.Units.1.map (fun u => u.Name)).Sorted (· < ·) ∧
    (f.Schedule.1.map (fun su => su.Name)).Sorted (· < ·) ∧
    f.Units.1.length = f.jobs.keys.card ∧
    f.Schedule.1.length = f.jobs.keys.card ∧
    (∀ (i : Nat) (h1 : i < f.Units.1.length) (h2 : i < f.Schedule.1.length),
      (f.Units.1[i]).Name = (f.Schedule.1[i]).Name) := by
  have hinv : KeysAreNames f := KeysAreNames_of_reachable f hf
  have hU := Units_names f hinv
  have hS := Schedule_names f hinv
  refine ⟨?_, ?_, ?_, ?_, ?_⟩
  · rw [hU]
    exact sortedNames_strict f hinv
  · rw [hS]
    exact sortedNames_strict f hinv
  · rw [← length_sortedNames f hinv, ← hU, List.length_map]
  · rw [← length_sortedNames f hinv, ← hS, List.length_map]
  · intro i h1 h2
    have e : f.Units.1.map (fun u => u.Name) = f.Schedule.1.map (fun su => su.Name) := by
      rw [hU, hS]
    have h1' : i < (f.Units.1.map (fun u => u.Name)).length := by
      rw [List.length_map]; exact h1
    have h2' : i < (f.Schedule.1.map (fun su => su.Name)).length := by
      rw [List.length_map]; exact h2
    have e1 : (f.Units.1.map (fun u => u.Name))[i] = (f.Units.1[i]).Name := by
      simp
    have e2 : (f.Schedule.1.map (fun su => su.Name))[i] = (f.Schedule.1[i]).Name := by
      simp
    rw [← e1, ← e2]
    simp only [e]

/-- C16, witness: the registry that `SetJobs` builds from `twoJobs`, which
names `web.service` before `db.service`, is reachable and stores two units;
both listings are strictly ascending, have two entries and agree in the
names position by position, and `Units()` lists `db.service` before
`web.service`. -/
theorem listings_sorted_and_aligned_witness :
    Reachable (NewFakeRegistry.SetJobs twoJobs) ∧
    (NewFakeRegistry.SetJobs twoJobs).jobs.keys.card = 2 ∧
    twoJobs.map (fun j => j.Name) = ["web.service", "db.service"] ∧
    ((NewFakeRegistry.SetJobs twoJobs).Units.1.map (fun u => u.Name)).Sorted (· < ·) ∧
    ((NewFakeRegistry.SetJobs twoJobs).Schedule.1.map (fun su => su.Name)).Sorted (· < ·) ∧
    (NewFakeRegistry.SetJobs twoJobs).Units.1.length =
      (NewFakeRegistry.SetJobs twoJobs).jobs.keys.card ∧
    (NewFakeRegistry.SetJobs twoJobs).Schedule.1.length =
      (NewFakeRegistry.SetJobs twoJobs).jobs.keys.card ∧
    (∀ (i : Nat) (h1 : i < (NewFakeRegistry.SetJobs twoJobs).Units.1.length)
      (h2 : i < (NewFakeRegistry.SetJobs twoJobs).Schedule.1.length),
      ((NewFakeRegistry.SetJobs twoJobs).Units.1[i]).Name =
        ((NewFakeRegistry.SetJobs twoJobs).Schedule.1[i]).Name) ∧
    (NewFakeRegistry.SetJobs twoJobs).Units.1.map (fun u => u.Name) =
      ["db.service", "web.service"] := by
  have hr : Reachable (NewFakeRegistry.SetJobs twoJobs) := ⟨[.SetJobs twoJobs], by decide⟩
  have h := listings_sorted_and_aligned (NewFakeRegistry.SetJobs twoJobs) hr
  refine ⟨hr, by decide, by decide, h.1, h.2.1, h.2.2.1, h.2.2.2.1, h.2.2.2.2, ?_⟩
  have hm : ((NewFakeRegistry.SetJobs twoJobs).sortedNames : Multiset String) =
      ((["db.service", "web.service"] : List String) : Multiset String) := by
    unfold FakeRegistry.sortedNames
    rw [Multiset.sort_eq]
    decide
  have hp : ((NewFakeRegistry.SetJobs twoJobs).Units.1.map (fun u => u.Name)).Perm
      ["db.service", "web.service"] := by
    rw [Units_names _ (KeysAreNames_of_reachable _ hr)]
    exact Quotient.exact hm
  have hlt : ("db.service" : String) < "web.service" :=
    String.lt_iff_toList_lt.mpr (by decide)
  have hsorted : (["db.service", "web.service"] : List String).Sorted (· < ·) :=
    List.sorted_cons.mpr ⟨fun b hb => (by
      rw [List.mem_singleton] at hb
      rw [hb]
      exact hlt), List.sorted_singleton _⟩
  exact List.eq_of_perm_of_sorted hp h.1 hsorted

/-- Under the invariant, the entries of `Units()` are the stored jobs, read
as units. -/
theorem mem_Units (f : FakeRegistry) (hf : KeysAreNames f) (u : job.Unit) :
    u ∈ f.Units.1 ↔ ∃ j : job.Job, f.jobs.lookup u.Name = some j ∧
      u = { Name := j.Name, Unit := j.Unit, TargetState := j.TargetState } := by
  simp only [FakeRegistry.Units, List.mem_map]
  constructor
  · rintro ⟨k, hk, rfl⟩
    obtain ⟨j, hj⟩ := Finmap.mem_iff.mp ((mem_sortedNames f hf k).mp hk)
    refine ⟨j, ?_, ?_⟩
    · rw [jobsIndex_of_lookup f k j hj, hf k j hj]
      exact hj
    · simp only [jobsIndex_of_lookup f k j hj]
  · rintro ⟨j, hj, hu⟩
    refine ⟨u.Name, (mem_sortedNames f hf u.Name).mpr (Finmap.mem_of_lookup_eq_some hj), ?_⟩
    simp only [jobsIndex_of_lookup f u.Name j hj]
    exact hu.symm

/-- Under the invariant, the entries of `Schedule()` are the stored jobs,
read as scheduled units. -/
theorem mem_Schedule (f : FakeRegistry) (hf : KeysAreNames f) (su : job.ScheduledUnit) :
    su ∈ f.Schedule.1 ↔ ∃ j : job.Job, f.jobs.lookup su.Name = some j ∧
      su = { Name := j.Name, State := j.State, TargetMachineID := j.TargetMachineID } := by
  simp only [FakeRegistry.Schedule, List.mem_map]
  constructor
  · rintro ⟨k, hk, rfl⟩
    obtain ⟨j, hj⟩ := Finmap.mem_iff.mp ((mem_sortedNames f hf k).mp hk)
    refine ⟨j, ?_, ?_⟩
    · rw [jobsIndex_of_lookup f k j hj, hf k j hj]
      exact hj
    · simp only [jobsIndex_of_lookup f k j hj]
  · rintro ⟨j, hj, hu⟩
    refine ⟨su.Name, (mem_sortedNames f hf su.Name).mpr (Finmap.mem_of_lookup_eq_some hj), ?_⟩
    simp only [jobsIndex_of_lookup f su.Name j hj]
    exact hu.symm

/-- C17.  In every reachable registry state and for every name `n`: `Unit(n)`
returns no error; it returns nil exactly when no entry of `Units()` is named
`n`; and a unit it returns is the one entry of `Units()` named `n`.  The
same holds of `ScheduledUnit(n)` and `Schedule()`. -/
theorem lookups_agree_with_listings (f : FakeRegistry) (hf : Reachable f) (n : String) :
    ((f.Unit n).2 = none ∧
      ((f.Unit n).1 = none ↔ ∀ u ∈ f.Units.1, u.Name ≠ n) ∧
      (∀ u : job.Unit, (f.Unit n).1 = some u →
        u ∈ f.Units.1 ∧ u.Name = n ∧ ∀ u' ∈ f.Units.1, u'.Name = n → u' = u)) ∧
    ((f.ScheduledUnit n).2 = none ∧
      ((f.ScheduledUnit n).1 = none ↔ ∀ su ∈ f.Schedule.1, su.Name ≠ n) ∧
      (∀ su : job.ScheduledUnit, (f.ScheduledUnit n).1 = some su →
        su ∈ f.Schedule.1 ∧ su.Name = n ∧ ∀ su' ∈ f.Schedule.1, su'.Name = n → su' = su)) := by
  have hinv : KeysAreNames f := KeysAreNames_of_reachable f hf
  constructor
  · unfold FakeRegistry.Unit
    cases h : f.jobs.lookup n with
    | none =>
      refine ⟨rfl, ⟨fun _ u hu hn => ?_, fun _ => rfl⟩, fun u hu => by cases hu⟩
      obtain ⟨j, hj, _⟩ := (mem_Units f hinv u).mp hu
      rw [hn, h] at hj
      cases hj
    | some j =>
      have hjn : j.Name = n := hinv n j h
      refine ⟨rfl, ⟨fun hc => (by cases hc), fun hall => ?_⟩, ?_⟩
      · exact absurd hjn (hall _ ((mem_Units f hinv _).mpr ⟨j, (by rw [hjn]; exact h), rfl⟩))
      · intro u hu
        simp only [Option.some.injEq] at hu
        subst hu
        refine ⟨(mem_Units f hinv _).mpr ⟨j, (by rw [hjn]; exact h), rfl⟩, hjn, ?_⟩
        intro u' hu' hn'
        obtain ⟨j', hj', hu'eq⟩ := (mem_Units f hinv u').mp hu'
        rw [hn', h] at hj'
        cases hj'
        exact hu'eq
  · unfold FakeRegistry.ScheduledUnit
    cases h : f.jobs.lookup n with
    | none =>
      refine ⟨rfl, ⟨fun _ su hsu hn => ?_, fun _ => rfl⟩, fun su hsu => by cases hsu⟩
      obtain ⟨j, hj, _⟩ := (mem_Schedule f hinv su).mp hsu
      rw [hn, h] at hj
      cases hj
    | some j =>
      have hjn : j.Name = n := hinv n j h
      refine ⟨rfl, ⟨fun hc => (by cases hc), fun hall => ?_⟩, ?_⟩
      · exact absurd hjn (hall _ ((mem_Schedule f hinv _).mpr ⟨j, (by rw [hjn]; exact h), rfl⟩))
      · intro su hsu
        simp only [Option.some.injEq] at hsu
        subst hsu
        refine ⟨(mem_Schedule f hinv _).mpr ⟨j, (by rw [hjn]; exact h), rfl⟩, hjn, ?_⟩
        intro su' hsu' hn'
        obtain ⟨j', hj', hsu'eq⟩ := (mem_Schedule f hinv su').mp hsu'
        rw [hn', h] at hj'
        cases hj'
        exact hsu'eq

/-- C17, witness: in the registry built from `duplicateJobs`, `web.service`
is found by `Unit` and listed by `Units()`. -/
theorem lookups_agree_with_listings_witness :
    Reachable (NewFakeRegistry.SetJobs duplicateJobs) ∧
    ((NewFakeRegistry.SetJobs duplicateJobs).Unit "web.service").1 =
      some { Name := "web.service", Unit := { raw := "[Service]" },
             TargetState := "launched" } ∧
    ({ Name := "web.service", Unit := { raw := "[Service]" }, TargetState := "launched" } :
      job.Unit) ∈ (NewFakeRegistry.SetJobs duplicateJobs).Units.1 :=
  ⟨⟨[.SetJobs duplicateJobs], by decide⟩, by decide,
    ((lookups_agree_with_listings (NewFakeRegistry.SetJobs duplicateJobs)
      ⟨[.SetJobs duplicateJobs], by decide⟩ "web.service").1.2.2 _ (by decide)).1⟩

end registry

/-! ### Splitting strings -/

namespace strings

/-- In front of a character other than `sep`, `genSplit` puts the character
on the first piece. -/
theorem genSplit_cons_of_ne (sep c : Char) (hc : c ≠ sep) (k : Nat) (cs : List Char) :
    genSplit sep k (c :: cs) = (genSplit sep k cs).modifyHead (List.cons c) := by
  cases k with
  | zero => rfl
  | succ k =>
    simp only [genSplit, Index, if_neg hc]
    cases Index cs sep with
    | none => rfl
    | some m => rfl

/-- With `Count(s, sep) + 1` pieces allowed, `genSplit` cuts `s` at every
`sep`. -/
theorem genSplit_count (sep : Char) (s : List Char) :
    genSplit sep (Count s sep) s = s.splitOn sep := by
  induction s with
  | nil => rfl
  | cons c cs ih =>
    rw [List.splitOn, List.splitOnP_cons]
    by_cases hc : c = sep
    · subst hc
      have hcount : Count (c :: cs) c = Count cs c + 1 := by
        simp [Count]
      rw [hcount]
      simp only [genSplit, Index, if_true, List.take_zero, List.drop_succ_cons, List.drop_zero,
        beq_self_eq_true]
      rw [ih]
      rfl
    · have hcount : Count (c :: cs) sep = Count cs sep := by
        simp [Count, List.count_cons, hc]
      rw [hcount, genSplit_cons_of_ne sep c hc, ih]
      have : (c == sep) = false := by simpa using hc
      simp only [this]
      rfl

/-- The pieces of `strings.Split(s, sep)` are the segments of `s` between
the occurrences of `sep`. -/
theorem Split_eq (s : String) (sep : Char) :
    Split s sep = (s.data.splitOn sep).map String.mk := by
  rw [Split, genSplit_count]

/-- With two pieces allowed, `genSplit` cuts `s` at its first `sep`, when
there is one. -/
theorem genSplit_one (sep : Char) (s : List Char) :
    genSplit sep 1 s =
      if sep ∈ s then [s.takeWhile (fun c => c ≠ sep), (s.dropWhile (fun c => c ≠ sep)).tail]
      else [s] := by
  induction s with
  | nil => rfl
  | cons c cs ih =>
    by_cases hc : c = sep
    · subst hc
      simp [genSplit, Index]
    · rw [genSplit_cons_of_ne sep c hc, ih]
      have hne : sep ≠ c := fun h => hc h.symm
      by_cases hmem : sep ∈ cs
      · simp [hmem, hc, hne, List.modifyHead]
      · simp [hmem, hc, hne, List.modifyHead]

end strings

/-! ### parseRequirements -/

namespace registry

/-- The entries of a map after a write: the written entry next to the
entries under the other keys. -/
theorem GoMap.entries_insert {V : Type} (m : GoMap V) (n : String) (w : V) :
    (m.insert n w).entries = ⟨n, w⟩ ::ₘ (m.erase n).entries := by
  rw [GoMap.insert_eq_insert_erase, Finmap.insert_entries_of_neg Finmap.not_mem_erase_self]

/-- The entries of a map: a stored entry next to the entries under the other
keys. -/
theorem GoMap.entries_of_lookup {V : Type} (m : GoMap V) (n : String) (v : V)
    (h : m.lookup n = some v) : m.entries = ⟨n, v⟩ ::ₘ (m.erase n).entries := by
  conv_lhs => rw [← GoMap.insert_erase_of_lookup m n v h]
  rw [Finmap.insert_entries_of_neg Finmap.not_mem_erase_self]

end registry

namespace fleetctl

open registry (GoMap)

/-- What `add` stores: under `key` the old values, if any, followed by `val`;
under any other key what was there. -/
theorem lookup_add (reqs : GoMap (List String)) (key val k : String) :
    (parseRequirements.add reqs key val).lookup k =
      if k = key then some ((reqs.lookup key).getD [] ++ [val]) else reqs.lookup k := by
  unfold parseRequirements.add
  by_cases hk : k = key
  · subst hk
    cases h : reqs.lookup k with
    | none => simp [Finmap.lookup_insert]
    | some vals => simp [Finmap.lookup_insert]
  · cases h : reqs.lookup key with
    | none => simp [hk, Finmap.lookup_insert_of_ne _ hk]
    | some vals => simp [hk, Finmap.lookup_insert_of_ne _ hk]

/-- Each call of `add` stores one more value. -/
theorem totalValues_add (reqs : GoMap (List String)) (key val : String) :
    totalValues (parseRequirements.add reqs key val) = totalValues reqs + 1 := by
  unfold parseRequirements.add totalValues
  cases h : reqs.lookup key with
  | none =>
    have hn : key ∉ reqs := Finmap.lookup_eq_none.mp h
    simp only [Finmap.insert_insert]
    rw [Finmap.insert_entries_of_neg hn]
    simp [Nat.add_comm]
  | some vals =>
    simp only
    rw [GoMap.entries_insert, GoMap.entries_of_lookup reqs key vals h]
    simp only [Multiset.map_cons, Multiset.sum_cons, List.length_append, List.length_singleton]
    omega

/-- One iteration of the loop on a segment: a segment with `=` adds its
pair, a segment without `=` adds nothing. -/
theorem step_mk (reqs : GoMap (List String)) (seg : List Char) :
    parseRequirements.step reqs (String.mk seg) =
      if '=' ∈ seg then
        parseRequirements.add reqs
          ("MachineMetadata" ++ strings.TrimSpace (String.mk (seg.takeWhile (fun c => c ≠ '='))))
          (strings.TrimSpace (String.mk (seg.dropWhile (fun c => c ≠ '=')).tail))
      else reqs := by
  unfold parseRequirements.step strings.SplitN
  have h2 : ((2 : Int).toNat - 1) = 1 := rfl
  simp only [show ¬ ((2 : Int) = 0) by decide, show ¬ ((2 : Int) < 0) by decide, if_false, h2]
  rw [strings.genSplit_one]
  by_cases hmem : '=' ∈ seg
  · simp [hmem]
  · simp [hmem]

/-- The loop of `parseRequirements` adds the pairs of the segments that
contain `=`, from left to right. -/
theorem foldl_step (segs : List (List Char)) (reqs : GoMap (List String)) :
    (segs.map String.mk).foldl parseRequirements.step reqs =
      (((segs.filter (fun seg => '=' ∈ seg)).map (fun seg =>
        ("MachineMetadata" ++
          strings.TrimSpace (String.mk (seg.takeWhile (fun c => c ≠ '='))),
         strings.TrimSpace (String.mk (seg.dropWhile (fun c => c ≠ '=')).tail)))).foldl
        (fun m kv => parseRequirements.add m kv.1 kv.2) reqs) := by
  induction segs generalizing reqs with
  | nil => rfl
  | cons seg rest ih =>
    simp only [List.map_cons, List.foldl_cons, step_mk]
    by_cases hmem : '=' ∈ seg
    · simp only [hmem, if_true, List.filter_cons, decide_True, List.map_cons, List.foldl_cons]
      exact ih _
    · simp only [hmem, if_false, List.filter_cons, decide_False]
      exact ih _

/-- The result of `parseRequirements` is the requirement pairs of the
argument, added from left to right to the empty map. -/
theorem parseRequirements_eq_foldl (arg : String) :
    parseRequirements arg =
      (requirementPairs arg).foldl (fun m kv => parseRequirements.add m kv.1 kv.2) ∅ := by
  rw [parseRequirements, strings.Split_eq, foldl_step]
  rfl

/-- What a run of `add` over a list of pairs stores under a key. -/
theorem lookup_foldl_add (ps : List (String × String)) (reqs : GoMap (List String))
    (k : String) :
    (ps.foldl (fun m kv => parseRequirements.add m kv.1 kv.2) reqs).lookup k =
      match (ps.filter (fun kv => kv.1 = k)).map (fun kv => kv.2) with
      | [] => reqs.lookup k
      | v :: vs => some ((reqs.lookup k).getD [] ++ v :: vs) := by
  induction ps generalizing reqs with
  | nil => rfl
  | cons p rest ih =>
    rw [List.foldl_cons, ih]
    by_cases hp : p.1 = k
    · subst hp
      simp only [List.filter_cons, decide_True, if_true, List.map_cons, lookup_add]
      cases hrest : (rest.filter (fun kv => kv.1 = p.1)).map (fun kv => kv.2) with
      | nil => simp
      | cons v vs => simp
    · have hk : ¬ k = p.1 := fun h => hp h.symm
      simp only [List.filter_cons, hp, decide_False, lookup_add, hk, if_false]
      rfl

/-- The result of `parseRequirements`, key by key, is the multimap of the
requirement pairs. -/
theorem lookup_parseRequirements (arg k : String) :
    (parseRequirements arg).lookup k = requirementsSpec arg k := by
  rw [parseRequirements_eq_foldl, lookup_foldl_add, requirementsSpec]
  cases ((requirementPairs arg).filter (fun kv => kv.1 = k)).map (fun kv => kv.2) with
  | nil => simp [Finmap.lookup_empty]
  | cons v vs => simp [Finmap.lookup_empty]

/-- A run of `add` over a list of pairs stores one value for each pair. -/
theorem totalValues_foldl_add (ps : List (String × String)) (reqs : GoMap (List String)) :
    totalValues (ps.foldl (fun m kv => parseRequirements.add m kv.1 kv.2) reqs) =
      totalValues reqs + ps.length := by
  induction ps generalizing reqs with
  | nil => rfl
  | cons p rest ih =>
    rw [List.foldl_cons, ih, totalValues_add, List.length_cons]
    omega

/-- C13.  For every argument string, `parseRequirements` maps each key to
what the ordered multimap of the requirement pairs maps it to: the trimmed
value parts of the comma-separated segments that contain `=` and whose
trimmed key part, after `MachineMetadata`, is that key, in their order from
left to right, each segment being split at its first `=`; a key of no such
segment is not mapped.  The documented argument `region=us-east` yields the
one entry `MachineMetadataregion` with the one value `us-east`. -/
theorem parseRequirements_ordered_multimap (arg key : String) :
    (parseRequirements arg).lookup key = requirementsSpec arg key ∧
    parseRequirements "region=us-east" =
      Finmap.singleton "MachineMetadataregion" ["us-east"] := by
  refine ⟨lookup_parseRequirements arg key, by decide⟩

/-- C20.  For every argument string: every key of the result of
`parseRequirements` begins with `MachineMetadata` and maps to a non-empty
list; the number of values over all keys is the number of comma-separated
segments that contain `=`; the result is the empty map exactly when no
segment contains `=`; and it is the empty map for the empty string. -/
theorem parseRequirements_values_nonempty (arg : String) :
    (∀ (key : String) (vals : List String), (parseRequirements arg).lookup key = some vals →
      (∃ rest : String, key = "MachineMetadata" ++ rest) ∧ vals ≠ []) ∧
    totalValues (parseRequirements arg) =
      ((arg.data.splitOn ',').filter (fun seg => '=' ∈ seg)).length ∧
    (parseRequirements arg = ∅ ↔ ∀ seg ∈ arg.data.splitOn ',', '=' ∉ seg) ∧
    parseRequirements "" = ∅ := by
  have htotal : totalValues (parseRequirements arg) =
      ((arg.data.splitOn ',').filter (fun seg => '=' ∈ seg)).length := by
    have h0 : totalValues (∅ : GoMap (List String)) = 0 := rfl
    rw [parseRequirements_eq_foldl, totalValues_foldl_add, h0, requirementPairs,
      List.length_map, Nat.zero_add]
  refine ⟨?_, htotal, ⟨?_, ?_⟩, by decide⟩
  · intro key vals h
    rw [lookup_parseRequirements, requirementsSpec] at h
    cases hv : ((requirementPairs arg).filter (fun kv => kv.1 = key)).map (fun kv => kv.2) with
    | nil => simp [hv] at h
    | cons v vs =>
      simp only [hv, Option.some.injEq] at h
      subst h
      refine ⟨?_, by simp⟩
      have hmem : v ∈ ((requirementPairs arg).filter (fun kv => kv.1 = key)).map
          (fun kv => kv.2) := by
        rw [hv]
        exact List.mem_cons_self _ _
      obtain ⟨kv, hkv, _⟩ := List.mem_map.mp hmem
      obtain ⟨hin, hkey⟩ := List.mem_filter.mp hkv
      have hkey' : kv.1 = key := by simpa using hkey
      unfold requirementPairs at hin
      obtain ⟨seg, _, hseg⟩ := List.mem_map.mp hin
      refine ⟨strings.TrimSpace (String.mk (seg.takeWhile (fun c => c ≠ '='))), ?_⟩
      rw [← hkey', ← hseg]
  · intro hempty
    rw [hempty] at htotal
    have hzero : ((arg.data.splitOn ',').filter (fun seg => '=' ∈ seg)).length = 0 := by
      rw [← htotal]
      rfl
    have hnil := List.length_eq_zero.mp hzero
    intro seg hseg hmem
    have : seg ∈ (arg.data.splitOn ',').filter (fun seg => '=' ∈ seg) :=
      List.mem_filter.mpr ⟨hseg, by simpa using hmem⟩
    rw [hnil] at this
    cases this
  · intro hall
    have hnil : (arg.data.splitOn ',').filter (fun seg => decide ('=' ∈ seg)) = [] := by
      apply List.filter_eq_nil_iff.mpr
      intro seg hseg
      simpa using hall seg hseg
    rw [parseRequirements_eq_foldl, requirementPairs, hnil]
    rfl

end fleetctl

/-! ### startUnitAction -/

namespace fleetctl

/-- The failure branches neither create a job nor verify a payload. -/
theorem failWithName_log (payload : Option JobPayload) (text : String → String) (c : Call)
    (hc : c ∈ (failWithName payload text).1) :
    (∀ j e, c ≠ Call.CreateJob j e) ∧ (∀ i p s ok err, c ≠ Call.VerifyPayload i p s ok err) := by
  unfold failWithName at hc
  cases payload with
  | none => simp at hc
  | some p =>
    simp only [List.mem_cons, List.mem_singleton, List.not_mem_nil, or_false] at hc
    rcases hc with rfl | rfl <;> exact ⟨fun _ _ h => (by cases h), fun _ _ _ _ _ h => (by cases h)⟩

/-- Creating the signer and the verifier neither creates a job nor verifies
a payload. -/
theorem setupSigning_log {W : Type} (env : Oracles W) (toSign : Bool) (w : W) (c : Call)
    (hc : c ∈ (setupSigning env toSign w).2.1) :
    (∀ j e, c ≠ Call.CreateJob j e) ∧ (∀ i p s ok err, c ≠ Call.VerifyPayload i p s ok err) := by
  unfold setupSigning at hc
  split at hc
  · split at hc
    · simp only [List.mem_cons, List.mem_singleton, List.not_mem_nil, or_false] at hc
      rcases hc with rfl | rfl | rfl <;>
        exact ⟨fun _ _ h => (by cases h), fun _ _ _ _ _ h => (by cases h)⟩
    · split at hc
      · simp only [List.mem_cons, List.mem_singleton, List.not_mem_nil, or_false] at hc
        rcases hc with rfl | rfl | rfl | rfl <;>
          exact ⟨fun _ _ h => (by cases h), fun _ _ _ _ _ h => (by cases h)⟩
      · simp only [List.mem_cons, List.mem_singleton, List.not_mem_nil, or_false] at hc
        rcases hc with rfl | rfl <;>
          exact ⟨fun _ _ h => (by cases h), fun _ _ _ _ _ h => (by cases h)⟩
  · simp at hc

/-- Creating a payload from a file neither creates a job nor verifies a
payload. -/
theorem createPayload_log {W : Type} (env : Oracles W) (toSign : Bool) (i : Nat) (v : String)
    (w : W) (c : Call) (hc : c ∈ (createPayload env toSign i v w).2.1) :
    (∀ j e, c ≠ Call.CreateJob j e) ∧ (∀ i p s ok err, c ≠ Call.VerifyPayload i p s ok err) := by
  unfold createPayload at hc
  split at hc
  · simp only [List.mem_cons, List.mem_singleton, List.not_mem_nil, or_false] at hc
    rcases hc with rfl | rfl | rfl <;>
      exact ⟨fun _ _ h => (by cases h), fun _ _ _ _ _ h => (by cases h)⟩
  · split at hc
    · simp only [List.mem_append, List.mem_cons, List.mem_singleton, List.not_mem_nil,
        or_false] at hc
      rcases hc with (rfl | rfl) | hc
      · exact ⟨fun _ _ h => (by cases h), fun _ _ _ _ _ h => (by cases h)⟩
      · exact ⟨fun _ _ h => (by cases h), fun _ _ _ _ _ h => (by cases h)⟩
      · exact failWithName_log _ _ c hc
    · split at hc
      · split at hc
        · simp only [List.mem_append, List.mem_cons, List.mem_singleton, List.not_mem_nil,
            or_false] at hc
          rcases hc with (rfl | rfl | rfl) | hc
          · exact ⟨fun _ _ h => (by cases h), fun _ _ _ _ _ h => (by cases h)⟩
          · exact ⟨fun _ _ h => (by cases h), fun _ _ _ _ _ h => (by cases h)⟩
          · exact ⟨fun _ _ h => (by cases h), fun _ _ _ _ _ h => (by cases h)⟩
          · exact failWithName_log _ _ c hc
        · simp only [List.mem_cons, List.mem_singleton, List.not_mem_nil, or_false] at hc
          rcases hc with rfl | rfl | rfl | rfl <;>
            exact ⟨fun _ _ h => (by cases h), fun _ _ _ _ _ h => (by cases h)⟩
      · simp only [List.mem_cons, List.mem_singleton, List.not_mem_nil, or_false] at hc
        rcases hc with rfl | rfl <;>
          exact ⟨fun _ _ h => (by cases h), fun _ _ _ _ _ h => (by cases h)⟩

/-- When creating a payload from a file succeeds, the payload is the one
that was read from the file, without an error. -/
theorem createPayload_ok {W : Type} (env : Oracles W) (toSign : Bool) (i : Nat) (v : String)
    (w : W) (payload : Option JobPayload)
    (h : (createPayload env toSign i v w).2.2 = Except.ok payload) :
    Call.getJobPayloadFromFile i v payload none ∈ (createPayload env toSign i v w).2.1 := by
  unfold createPayload at h ⊢
  rcases hf : env.getJobPayloadFromFile v w with ⟨⟨pl, ferr⟩, w1⟩
  cases ferr with
  | some e =>
    simp only [hf] at h
    cases h
  | none =>
    rcases hc : env.CreatePayload pl w1 with ⟨cerr, w2⟩
    cases cerr with
    | some e =>
      simp only [hf, hc] at h
      cases h
    | none =>
      cases toSign with
      | false =>
        simp only [hf, hc, Bool.false_eq_true, if_false, Except.ok.injEq] at h ⊢
        subst h
        simp
      | true =>
        rcases hsg : env.SignPayload pl w2 with ⟨⟨sg, serr⟩, w3⟩
        cases serr with
        | some e =>
          simp only [hf, hc, hsg, if_true] at h
          cases h
        | none =>
          simp only [hf, hc, hsg, if_true, Except.ok.injEq] at h ⊢
          subst h
          simp

/-- Verifying a payload creates no job. -/
theorem verifyPayload_log {W : Type} (env : Oracles W) (i : Nat) (name : String)
    (payload : Option JobPayload) (w : W) (c : Call)
    (hc : c ∈ (verifyPayload env i name payload w).2.1) : ∀ j e, c ≠ Call.CreateJob j e := by
  unfold verifyPayload at hc
  rcases hs : env.GetSignatureSetOfPayload name w with ⟨s, w1⟩
  rcases hv : env.VerifyPayload payload s w1 with ⟨⟨ok, err⟩, w2⟩
  simp only [hs, hv] at hc
  split at hc
  · simp only [List.mem_append, List.mem_cons, List.mem_singleton, List.not_mem_nil,
      or_false] at hc
    rcases hc with (rfl | rfl) | hc
    · exact fun _ _ h => by cases h
    · exact fun _ _ h => by cases h
    · exact (failWithName_log _ _ c hc).1
  · simp only [List.mem_cons, List.mem_singleton, List.not_mem_nil, or_false] at hc
    rcases hc with rfl | rfl <;> exact fun _ _ h => by cases h

/-- When the verification block is passed, the verifier was asked about the
payload and answered true without an error, and it gave no other answer. -/
theorem verifyPayload_ok {W : Type} (env : Oracles W) (i : Nat) (name : String)
    (payload : Option JobPayload) (w : W) (u : Unit)
    (h : (verifyPayload env i name payload w).2.2 = Except.ok u) :
    (∃ s, Call.VerifyPayload i payload s true none ∈ (verifyPayload env i name payload w).2.1) ∧
    (∀ i' p s ok err,
      Call.VerifyPayload i' p s ok err ∈ (verifyPayload env i name payload w).2.1 →
      ok = true ∧ err = none) := by
  unfold verifyPayload at h ⊢
  rcases hs : env.GetSignatureSetOfPayload name w with ⟨s, w1⟩
  rcases hv : env.VerifyPayload payload s w1 with ⟨⟨ok, err⟩, w2⟩
  simp only [hs, hv] at h ⊢
  split at h
  · cases h
  · rename_i hcond
    have hok : ok = true ∧ err = none := by
      cases ok <;> cases err <;> simp at hcond ⊢
    obtain ⟨rfl, rfl⟩ := hok
    rw [if_neg hcond]
    refine ⟨⟨s, by simp⟩, ?_⟩
    intro i' p s' ok' err' hmem
    simp only [List.mem_cons, List.mem_singleton, List.not_mem_nil, or_false] at hmem
    rcases hmem with hmem | hmem
    · cases hmem
    · cases hmem
      exact ⟨rfl, rfl⟩

/-- The shape of the log of one iteration of the first loop: the lookup of
the payload, then what creating the payload logs, if it is created, then
what verifying it logs, if it is verified.  With `--sign`, the iteration
yields a payload only when that very payload, found in the registry or read
from the file of the argument, was verified with the answer true and no
error, and the verifier gave no other answer. -/
theorem processArg_shape {W : Type} (env : Oracles W) (toSign : Bool) (i : Nat) (v : String)
    (w : W) :
    ∃ (found : Option JobPayload) (log2 log3 : List Call),
      (processArg env toSign i v w).2.1 =
        Call.GetPayload i (path.Base v) found :: (log2 ++ log3) ∧
      (∀ c ∈ log2, (∀ j e, c ≠ Call.CreateJob j e) ∧
        (∀ i' p s ok err, c ≠ Call.VerifyPayload i' p s ok err)) ∧
      (∀ c ∈ log3, ∀ j e, c ≠ Call.CreateJob j e) ∧
      (∀ p, (processArg env toSign i v w).2.2 = Except.ok p → toSign = true →
        (∃ s, Call.VerifyPayload i (some p) s true none ∈ log3) ∧
        (found = some p ∨ Call.getJobPayloadFromFile i v (some p) none ∈ log2) ∧
        (∀ i' q s ok err, Call.VerifyPayload i' q s ok err ∈ log3 → ok = true ∧ err = none)) := by
  unfold processArg
  rcases hg : env.GetPayload (path.Base v) w with ⟨found, w1⟩
  simp only
  rcases hr : loadPayload env toSign i v found w1 with ⟨w2, log2, r⟩
  have hlog2 : ∀ c ∈ log2, (∀ j e, c ≠ Call.CreateJob j e) ∧
      (∀ i' p s ok err, c ≠ Call.VerifyPayload i' p s ok err) := by
    intro c hc
    unfold loadPayload at hr
    cases found with
    | some p =>
      simp only [Prod.mk.injEq] at hr
      rw [← hr.2.1] at hc
      cases hc
    | none =>
      have := createPayload_log env toSign i v w1 c
      simp only at hr
      rw [hr] at this
      exact this hc
  cases r with
  | error o =>
    refine ⟨found, log2, [], by simp, hlog2, fun c hc => (by cases hc), ?_⟩
    intro p hp
    cases hp
  | ok payload =>
    have horigin : found = payload ∨ Call.getJobPayloadFromFile i v payload none ∈ log2 := by
      unfold loadPayload at hr
      cases found with
      | some p =>
        simp only [Prod.mk.injEq, Except.ok.injEq] at hr
        exact Or.inl hr.2.2
      | none =>
        have := createPayload_ok env toSign i v w1 payload (by simp only at hr; rw [hr])
        simp only at hr
        rw [hr] at this
        exact Or.inr this
    simp only
    cases toSign with
    | false =>
      refine ⟨found, log2, [], ?_, hlog2, fun c hc => (by cases hc), ?_⟩
      · cases payload <;> simp
      · intro p _ hs
        cases hs
    | true =>
      simp only [if_true]
      rcases hv : verifyPayload env i (path.Base v) payload w2 with ⟨w3, log3, r3⟩
      have hlog3 : ∀ c ∈ log3, ∀ j e, c ≠ Call.CreateJob j e := by
        intro c hc
        have := verifyPayload_log env i (path.Base v) payload w2 c
        rw [hv] at this
        exact this hc
      cases r3 with
      | error o =>
        refine ⟨found, log2, log3, rfl, hlog2, hlog3, ?_⟩
        intro p hp
        cases hp
      | ok u =>
        have hok := verifyPayload_ok env i (path.Base v) payload w2 u (by rw [hv])
        rw [hv] at hok
        refine ⟨found, log2, log3, ?_, hlog2, hlog3, ?_⟩
        · cases payload <;> rfl
        · intro p hp _
          cases payload with
          | none => cases hp
          | some p' =>
            simp only [Except.ok.injEq] at hp
            subst hp
            exact ⟨hok.1, horigin, hok.2⟩

/-- One iteration of the first loop creates no job. -/
theorem processArg_log {W : Type} (env : Oracles W) (toSign : Bool) (i : Nat) (v : String)
    (w : W) (c : Call) (hc : c ∈ (processArg env toSign i v w).2.1) :
    ∀ j e, c ≠ Call.CreateJob j e := by
  obtain ⟨found, log2, log3, hlog, h2, h3, _⟩ := processArg_shape env toSign i v w
  rw [hlog] at hc
  simp only [List.mem_cons, List.mem_append] at hc
  rcases hc with rfl | hc | hc
  · exact fun _ _ h => by cases h
  · exact (h2 c hc).1
  · exact h3 c hc

/-- With `--sign`, an iteration of the first loop that yields a payload has
got that payload from the registry, under the base name of the argument, or
from the file of the argument, has asked the verifier about that payload
and got the answer true without an error, and no other answer. -/
theorem processArg_ok {W : Type} (env : Oracles W) (i : Nat) (v : String) (w : W)
    (p : JobPayload) (h : (processArg env true i v w).2.2 = Except.ok p) :
    (∃ s, Call.VerifyPayload i (some p) s true none ∈ (processArg env true i v w).2.1) ∧
    (Call.GetPayload i (path.Base v) (some p) ∈ (processArg env true i v w).2.1 ∨
      Call.getJobPayloadFromFile i v (some p) none ∈ (processArg env true i v w).2.1) ∧
    (∀ i' q s ok err, Call.VerifyPayload i' q s ok err ∈ (processArg env true i v w).2.1 →
      ok = true ∧ err = none) := by
  obtain ⟨found, log2, log3, hlog, h2, _, hok⟩ := processArg_shape env true i v w
  obtain ⟨⟨s, hq⟩, horigin, hall⟩ := hok p h rfl
  rw [hlog]
  refine ⟨⟨s, ?_⟩, ?_, ?_⟩
  · simp only [List.mem_cons, List.mem_append]
    exact Or.inr (Or.inr hq)
  · rcases horigin with hf | hf
    · left
      rw [hf]
      exact List.mem_cons_self _ _
    · right
      simp only [List.mem_cons, List.mem_append]
      exact Or.inr (Or.inl hf)
  · intro i' q' s' ok err hmem
    simp only [List.mem_cons, List.mem_append] at hmem
    rcases hmem with hmem | hmem | hmem
    · cases hmem
    · exact absurd rfl ((h2 _ hmem).2 i' q' s' ok err)
    · exact hall i' q' s' ok err hmem

/-- The first loop creates no job. -/
theorem collectPayloads_log {W : Type} (env : Oracles W) (toSign : Bool) (args : List String)
    (i : Nat) (w : W) (c : Call) (hc : c ∈ (collectPayloads env toSign i args w).2.1) :
    ∀ j e, c ≠ Call.CreateJob j e := by
  induction args generalizing i w c with
  | nil => simp [collectPayloads] at hc
  | cons v vs ih =>
    unfold collectPayloads at hc
    rcases hp : processArg env toSign i v w with ⟨w1, log1, r1⟩
    have h1 : ∀ c ∈ log1, ∀ j e, c ≠ Call.CreateJob j e := by
      intro c hc
      have := processArg_log env toSign i v w c
      rw [hp] at this
      exact this hc
    rw [hp] at hc
    cases r1 with
    | error o => exact h1 c hc
    | ok p =>
      simp only at hc
      rcases hrest : collectPayloads env toSign (i + 1) vs w1 with ⟨w2, log2, r2⟩
      have h2 : ∀ c ∈ log2, ∀ j e, c ≠ Call.CreateJob j e := by
        intro c hc
        have := ih (i + 1) w1 c
        rw [hrest] at this
        exact this hc
      rw [hrest] at hc
      cases r2 <;>
      · simp only [List.mem_append] at hc
        rcases hc with hc | hc
        · exact h1 c hc
        · exact h2 c hc

/-- With `--sign`, a first loop that runs to its end has collected one
payload for each argument; the payload of an argument was found in the
registry under the base name of the argument or read from its file, and the
verifier was asked about that payload and answered true without an error;
the verifier gave no other answer. -/
theorem collectPayloads_ok {W : Type} (env : Oracles W) (args : List String) (i : Nat) (w : W)
    (ps : List JobPayload) (h : (collectPayloads env true i args w).2.2 = Except.ok ps) :
    ps.length = args.length ∧
    (∀ k v, args[k]? = some v → ∃ p s, ps[k]? = some p ∧
      Call.VerifyPayload (i + k) (some p) s true none ∈
        (collectPayloads env true i args w).2.1 ∧
      (Call.GetPayload (i + k) (path.Base v) (some p) ∈
          (collectPayloads env true i args w).2.1 ∨
        Call.getJobPayloadFromFile (i + k) v (some p) none ∈
          (collectPayloads env true i args w).2.1)) ∧
    (∀ i' q s ok err,
      Call.VerifyPayload i' q s ok err ∈ (collectPayloads env true i args w).2.1 →
      ok = true ∧ err = none) := by
  induction args generalizing i w ps with
  | nil =>
    simp only [collectPayloads, Except.ok.injEq] at h
    subst h
    refine ⟨rfl, fun k v hk => ?_, fun i' q s ok err hmem => ?_⟩
    · simp at hk
    · simp [collectPayloads] at hmem
  | cons v vs ih =>
    unfold collectPayloads at h ⊢
    rcases hp : processArg env true i v w with ⟨w1, log1, r1⟩
    rw [hp] at h
    cases r1 with
    | error o => cases h
    | ok p =>
      have hp1 := processArg_ok env i v w p (by rw [hp])
      rw [hp] at hp1
      simp only at h ⊢
      rcases hrest : collectPayloads env true (i + 1) vs w1 with ⟨w2, log2, r2⟩
      rw [hrest] at h
      cases r2 with
      | error o => cases h
      | ok ps' =>
        have hrec := ih (i + 1) w1 ps' (by rw [hrest])
        rw [hrest] at hrec
        simp only [Except.ok.injEq] at h
        subst h
        refine ⟨by simp [hrec.1], fun k v' hk => ?_, fun i' q s ok err hmem => ?_⟩
        · cases k with
          | zero =>
            simp only [List.getElem?_cons_zero, Option.some.injEq] at hk
            subst hk
            obtain ⟨⟨s, hs⟩, horigin, _⟩ := hp1
            refine ⟨p, s, by simp, List.mem_append_left _ hs, ?_⟩
            rcases horigin with ho | ho
            · exact Or.inl (List.mem_append_left _ ho)
            · exact Or.inr (List.mem_append_left _ ho)
          | succ k' =>
            simp only [List.getElem?_cons_succ] at hk
            obtain ⟨q, s, hq, hs, horigin⟩ := hrec.2.1 k' v' hk
            have hidx : i + 1 + k' = i + (k' + 1) := by omega
            rw [hidx] at hs horigin
            refine ⟨q, s, by simpa using hq, List.mem_append_right _ hs, ?_⟩
            rcases horigin with ho | ho
            · exact Or.inl (List.mem_append_right _ ho)
            · exact Or.inr (List.mem_append_right _ ho)
        · simp only [List.mem_append] at hmem
          rcases hmem with hmem | hmem
          · exact hp1.2.2 i' q s ok err hmem
          · exact hrec.2.2 i' q s ok err hmem

/-- The second loop verifies no payload. -/
theorem createJobs_log {W : Type} (env : Oracles W) (requirements : registry.GoMap (List String))
    (payloads : List JobPayload) (registeredJobs : registry.GoMap Bool) (w : W) (c : Call)
    (hc : c ∈ (createJobs env requirements payloads registeredJobs w).2.1) :
    ∀ i p s ok err, c ≠ Call.VerifyPayload i p s ok err := by
  induction payloads generalizing registeredJobs w c with
  | nil => simp [createJobs] at hc
  | cons jp rest ih =>
    unfold createJobs at hc
    rcases hcj : env.CreateJob (NewJob jp.Name requirements jp) w with ⟨err, w1⟩
    rw [hcj] at hc
    cases err with
    | some e =>
      simp only [List.mem_cons, List.mem_singleton, List.not_mem_nil, or_false] at hc
      rcases hc with rfl | rfl | rfl <;> exact fun _ _ _ _ _ h => by cases h
    | none =>
      simp only [List.mem_cons] at hc
      rcases hc with rfl | hc
      · exact fun _ _ _ _ _ h => by cases h
      · exact ih _ w1 c hc

/-- The second loop creates jobs of the collected payloads only, each built
by `job.NewJob` from the name of the payload, the requirements and the
payload. -/
theorem createJobs_jobs {W : Type} (env : Oracles W) (requirements : registry.GoMap (List String))
    (payloads : List JobPayload) (registeredJobs : registry.GoMap Bool) (w : W)
    (j : Job) (e : Option String)
    (hc : Call.CreateJob j e ∈ (createJobs env requirements payloads registeredJobs w).2.1) :
    ∃ p ∈ payloads, j = NewJob p.Name requirements p := by
  induction payloads generalizing registeredJobs w with
  | nil => simp [createJobs] at hc
  | cons jp rest ih =>
    unfold createJobs at hc
    rcases hcj : env.CreateJob (NewJob jp.Name requirements jp) w with ⟨err, w1⟩
    rw [hcj] at hc
    cases err with
    | some e' =>
      simp only [List.mem_cons, List.mem_singleton, List.not_mem_nil, or_false] at hc
      rcases hc with hc | hc | hc
      · cases hc
        exact ⟨jp, List.mem_cons_self _ _, rfl⟩
      · cases hc
      · cases hc
    | none =>
      simp only [List.mem_cons] at hc
      rcases hc with hc | hc
      · cases hc
        exact ⟨jp, List.mem_cons_self _ _, rfl⟩
      · obtain ⟨p, hp, hj⟩ := ih _ w1 hc
        exact ⟨p, List.mem_cons_of_mem _ hp, hj⟩

/-- The shape of the log of `startUnitAction`: a first part, of the set-up
and the first loop, that creates no job, and a second part, of the second
loop and the waiting, that verifies no payload.  The second part is empty
unless the first loop collected a payload for each argument, and it creates
jobs of these payloads only; with `--sign`, the payload of each argument
was found in the registry or read from the file of the argument and was
verified with the answer true and no error in the first part, and the
verifier gave no other answer. -/
theorem startUnitAction_shape {W : Type} (env : Oracles W) (c : Context) (w : W) :
    ∃ l1 l2 : List Call,
      (startUnitAction env c w).log = l1 ++ l2 ∧
      (∀ x ∈ l1, ∀ j e, x ≠ Call.CreateJob j e) ∧
      (∀ x ∈ l2, ∀ i p s ok err, x ≠ Call.VerifyPayload i p s ok err) ∧
      (l2 ≠ [] → ∃ payloads : List JobPayload,
        (∀ j e, Call.CreateJob j e ∈ l2 →
          ∃ p ∈ payloads, j = NewJob p.Name (parseRequirements c.require) p) ∧
        (c.sign = true →
          payloads.length = c.Args.length ∧
          (∀ k v, c.Args[k]? = some v → ∃ p s, payloads[k]? = some p ∧
            Call.VerifyPayload k (some p) s true none ∈ l1 ∧
            (Call.GetPayload k (path.Base v) (some p) ∈ l1 ∨
              Call.getJobPayloadFromFile k v (some p) none ∈ l1)) ∧
          (∀ i q s ok err, Call.VerifyPayload i q s ok err ∈ l1 → ok = true ∧ err = none))) := by
  unfold startUnitAction
  rcases h0 : setupSigning env c.sign w with ⟨w0, log0, r0⟩
  have hlog0 : ∀ x ∈ log0, (∀ j e, x ≠ Call.CreateJob j e) ∧
      (∀ i p s ok err, x ≠ Call.VerifyPayload i p s ok err) := by
    intro x hx
    have := setupSigning_log env c.sign w x
    rw [h0] at this
    exact this hx
  cases r0 with
  | error o =>
    exact ⟨log0, [], by simp, fun x hx => (hlog0 x hx).1, fun x hx => (by cases hx),
      fun hne => absurd rfl hne⟩
  | ok u =>
    simp only
    rcases h1 : collectPayloads env c.sign 0 c.Args w0 with ⟨w1, log1, r1⟩
    have hlog1 : ∀ x ∈ log1, ∀ j e, x ≠ Call.CreateJob j e := by
      intro x hx
      have := collectPayloads_log env c.sign c.Args 0 w0 x
      rw [h1] at this
      exact this hx
    have hfirst : ∀ x ∈ log0 ++ log1, ∀ j e, x ≠ Call.CreateJob j e := by
      intro x hx
      rcases List.mem_append.mp hx with hx | hx
      · exact (hlog0 x hx).1
      · exact hlog1 x hx
    cases r1 with
    | error o =>
      exact ⟨log0 ++ log1, [], by simp, hfirst, fun x hx => (by cases hx),
        fun hne => absurd rfl hne⟩
    | ok payloads =>
      simp only
      have hver : c.sign = true →
          payloads.length = c.Args.length ∧
          (∀ k v, c.Args[k]? = some v → ∃ p s, payloads[k]? = some p ∧
            Call.VerifyPayload k (some p) s true none ∈ log0 ++ log1 ∧
            (Call.GetPayload k (path.Base v) (some p) ∈ log0 ++ log1 ∨
              Call.getJobPayloadFromFile k v (some p) none ∈ log0 ++ log1)) ∧
          (∀ i q s ok err, Call.VerifyPayload i q s ok err ∈ log0 ++ log1 →
            ok = true ∧ err = none) := by
        intro hs
        rw [hs] at h1
        have hok := collectPayloads_ok env c.Args 0 w0 payloads (by rw [h1])
        rw [h1] at hok
        refine ⟨hok.1, fun k v hk => ?_, fun i q s ok err hmem => ?_⟩
        · obtain ⟨p, s, hp, hs', horigin⟩ := hok.2.1 k v hk
          rw [Nat.zero_add] at hs' horigin
          refine ⟨p, s, hp, List.mem_append_right _ hs', ?_⟩
          rcases horigin with ho | ho
          · exact Or.inl (List.mem_append_right _ ho)
          · exact Or.inr (List.mem_append_right _ ho)
        · rcases List.mem_append.mp hmem with hmem | hmem
          · exact absurd rfl ((hlog0 _ hmem).2 i q s ok err)
          · exact hok.2.2 i q s ok err hmem
      rcases h2 : createJobs env (parseRequirements c.require) payloads ∅ w1 with ⟨w2, log2, r2⟩
      have hlog2 : ∀ x ∈ log2, ∀ i p s ok err, x ≠ Call.VerifyPayload i p s ok err := by
        intro x hx
        have := createJobs_log env (parseRequirements c.require) payloads ∅ w1 x
        rw [h2] at this
        exact this hx
      have hjobs : ∀ j e, Call.CreateJob j e ∈ log2 →
          ∃ p ∈ payloads, j = NewJob p.Name (parseRequirements c.require) p := by
        intro j e hx
        have := createJobs_jobs env (parseRequirements c.require) payloads ∅ w1 j e
        rw [h2] at this
        exact this hx
      cases r2 with
      | error o =>
        exact ⟨log0 ++ log1, log2, rfl, hfirst, hlog2, fun _ => ⟨payloads, hjobs, hver⟩⟩
      | ok registeredJobs =>
        simp only
        split
        · refine ⟨log0 ++ log1, log2 ++ [.waitForScheduledUnits registeredJobs c.blockAttempts],
            by simp, hfirst, ?_, fun _ => ⟨payloads, ?_, hver⟩⟩
          · intro x hx
            rcases List.mem_append.mp hx with hx | hx
            · exact hlog2 x hx
            · simp only [List.mem_singleton] at hx
              subst hx
              exact fun _ _ _ _ _ h => by cases h
          · intro j e hx
            rcases List.mem_append.mp hx with hx | hx
            · exact hjobs j e hx
            · simp only [List.mem_singleton] at hx
              cases hx
        · exact ⟨log0 ++ log1, log2, rfl, hfirst, hlog2, fun _ => ⟨payloads, hjobs, hver⟩⟩

/-- C14.  In every run of `startUnitAction` with the sign flag set, whatever
the registry, the signer and the verifier answer: if a verification returns
false or an error, `CreateJob` is called for no payload; and before every
call of `CreateJob` the run has collected one payload for each argument,
found in the registry under the base name of the argument or read from the
file of the argument, the verifier was asked about that very payload and
answered true without an error, and the job that is created is built from
one of these verified payloads. -/
theorem unverified_payloads_never_scheduled {W : Type} (env : Oracles W) (c : Context) (w : W)
    (hs : c.sign = true) :
    ((∃ i p s ok err, Call.VerifyPayload i p s ok err ∈ (startUnitAction env c w).log ∧
        (ok = false ∨ err ≠ none)) →
      ∀ j e, Call.CreateJob j e ∉ (startUnitAction env c w).log) ∧
    (∀ pre post j e, (startUnitAction env c w).log = pre ++ Call.CreateJob j e :: post →
      ∃ payloads : List JobPayload,
        payloads.length = c.Args.length ∧
        (∀ i v, c.Args[i]? = some v → ∃ p s, payloads[i]? = some p ∧
          Call.VerifyPayload i (some p) s true none ∈ pre ∧
          (Call.GetPayload i (path.Base v) (some p) ∈ pre ∨
            Call.getJobPayloadFromFile i v (some p) none ∈ pre)) ∧
        (∃ p ∈ payloads, j = NewJob p.Name (parseRequirements c.require) p)) := by
  obtain ⟨l1, l2, hlog, h1, h2, hver⟩ := startUnitAction_shape env c w
  rw [hlog]
  constructor
  · rintro ⟨i, p, s, ok, err, hmem, hbad⟩ j e hjob
    have hjob2 : Call.CreateJob j e ∈ l2 := by
      rcases List.mem_append.mp hjob with hj | hj
      · exact absurd rfl (h1 _ hj j e)
      · exact hj
    have hne : l2 ≠ [] := List.ne_nil_of_mem hjob2
    obtain ⟨payloads, _, hv⟩ := hver hne
    rcases List.mem_append.mp hmem with hm | hm
    · obtain ⟨hok, herr⟩ := (hv hs).2.2 i p s ok err hm
      rcases hbad with hbad | hbad
      · rw [hok] at hbad
        cases hbad
      · exact hbad herr
    · exact absurd rfl (h2 _ hm i p s ok err)
  · intro pre post j e heq
    have hsplit : ∃ a, pre = l1 ++ a ∧ l2 = a ++ Call.CreateJob j e :: post := by
      rcases List.append_eq_append_iff.mp heq with ⟨a, hpre, hl2⟩ | ⟨a, hl1, hcons⟩
      · exact ⟨a, hpre, hl2⟩
      · cases a with
        | nil =>
          simp only [List.nil_append] at hcons
          simp only [List.append_nil] at hl1
          exact ⟨[], by simp [hl1], by simp [hcons]⟩
        | cons x a' =>
          simp only [List.cons_append, List.cons.injEq] at hcons
          have hx : Call.CreateJob j e ∈ l1 := by
            rw [hl1, ← hcons.1]
            simp
          exact absurd rfl (h1 _ hx j e)
    obtain ⟨a, hpre, hl2⟩ := hsplit
    have hne : l2 ≠ [] := by
      rw [hl2]
      simp
    have hjob2 : Call.CreateJob j e ∈ l2 := by
      rw [hl2]
      simp
    obtain ⟨payloads, hjobs, hv⟩ := hver hne
    obtain ⟨hlen, hargs, _⟩ := hv hs
    refine ⟨payloads, hlen, fun i v hi => ?_, hjobs j e hjob2⟩
    obtain ⟨p, s, hp, hvp, horigin⟩ := hargs i v hi
    refine ⟨p, s, hp, by rw [hpre]; exact List.mem_append_left _ hvp, ?_⟩
    rcases horigin with ho | ho
    · exact Or.inl (by rw [hpre]; exact List.mem_append_left _ ho)
    · exact Or.inr (by rw [hpre]; exact List.mem_append_left _ ho)

/-- C14, witness: in the sample invocation with `--sign`, the verifier
rejects the second argument, and no job is created, not even for the first
argument, which it accepted; when only the first argument is given, its
job is created, and the payload of that job was found in the registry under
the name `web.service` and verified before. -/
theorem unverified_payloads_never_scheduled_witness :
    sampleContext.sign = true ∧
    Call.VerifyPayload 0 (some { Name := "web.service", Unit := { raw := "[Service]" } })
      none true none ∈ (startUnitAction sampleOracles sampleContext 0).log ∧
    Call.VerifyPayload 1 (some { Name := "bad.service", Unit := { raw := "[Service]" } })
      none false none ∈ (startUnitAction sampleOracles sampleContext 0).log ∧
    (∀ j e, Call.CreateJob j e ∉ (startUnitAction sampleOracles sampleContext 0).log) ∧
    (startUnitAction sampleOracles { sampleContext with Args := ["units/web.service"] } 0).log =
      [Call.NewSignatureCreatorFromSSHAgent none, Call.NewSignatureVerifierFromSSHAgent none,
       Call.GetPayload 0 "web.service"
         (some { Name := "web.service", Unit := { raw := "[Service]" } }),
       Call.GetSignatureSetOfPayload 0 "web.service" none,
       Call.VerifyPayload 0 (some { Name := "web.service", Unit := { raw := "[Service]" } })
         none true none] ++
      Call.CreateJob (NewJob "web.service" (parseRequirements "region=us-east")
          { Name := "web.service", Unit := { raw := "[Service]" } }) none :: [] ∧
    (∃ payloads : List JobPayload,
      payloads.length = 1 ∧
      (∀ i v, ["units/web.service"][i]? = some v → ∃ p s, payloads[i]? = some p ∧
        Call.VerifyPayload i (some p) s true none ∈
          [Call.NewSignatureCreatorFromSSHAgent none, Call.NewSignatureVerifierFromSSHAgent none,
           Call.GetPayload 0 "web.service"
             (some { Name := "web.service", Unit := { raw := "[Service]" } }),
           Call.GetSignatureSetOfPayload 0 "web.service" none,
           Call.VerifyPayload 0
             (some { Name := "web.service", Unit := { raw := "[Service]" } }) none true none] ∧
        (Call.GetPayload i (path.Base v) (some p) ∈
            [Call.NewSignatureCreatorFromSSHAgent none,
             Call.NewSignatureVerifierFromSSHAgent none,
             Call.GetPayload 0 "web.service"
               (some { Name := "web.service", Unit := { raw := "[Service]" } }),
             Call.GetSignatureSetOfPayload 0 "web.service" none,
             Call.VerifyPayload 0
               (some { Name := "web.service", Unit := { raw := "[Service]" } }) none true none] ∨
          Call.getJobPayloadFromFile i v (some p) none ∈
            [Call.NewSignatureCreatorFromSSHAgent none,
             Call.NewSignatureVerifierFromSSHAgent none,
             Call.GetPayload 0 "web.service"
               (some { Name := "web.service", Unit := { raw := "[Service]" } }),
             Call.GetSignatureSetOfPayload 0 "web.service" none,
             Call.VerifyPayload 0
               (some { Name := "web.service", Unit := { raw := "[Service]" } }) none true none])) ∧
      (∃ p ∈ payloads,
        NewJob "web.service" (parseRequirements "region=us-east")
            { Name := "web.service", Unit := { raw := "[Service]" } } =
          NewJob p.Name (parseRequirements "region=us-east") p)) :=
  ⟨rfl, by decide, by decide,
    (unverified_payloads_never_scheduled sampleOracles sampleContext 0 rfl).1
      ⟨1, some { Name := "bad.service", Unit := { raw := "[Service]" } }, none, false, none,
        by decide, Or.inl rfl⟩,
    by decide,
    (unverified_payloads_never_scheduled sampleOracles
      { sampleContext with Args := ["units/web.service"] } 0 rfl).2 _ [] _ none (by decide)⟩

/-! ### checkJobTarget -/

/-- The loop of `checkJobTarget` when `GetMachineState` finds the machine of
every target: it does not panic, asks at most once per remaining iteration,
gets nil from every query but the last, and writes one line, the
`scheduled to` line when a query in range is answered and the `still
queued` line, after all the remaining iterations, otherwise. -/
theorem checkJobTarget.loop_of_found (GetJobTarget : Nat → Option MachineState)
    (GetMachineState : String → Option MachineState)
    (machineFullLegend : MachineState → Bool → String) (jobName : String)
    (hfound : ∀ k ms, GetJobTarget k = some ms → GetMachineState ms.BootID ≠ none)
    (remaining attempts : Nat) :
    (checkJobTarget.loop GetJobTarget GetMachineState machineFullLegend jobName
      remaining attempts).panicked = false ∧
    (checkJobTarget.loop GetJobTarget GetMachineState machineFullLegend jobName
      remaining attempts).queries ≤ attempts + remaining ∧
    (∀ k, attempts ≤ k →
      k + 1 < (checkJobTarget.loop GetJobTarget GetMachineState machineFullLegend jobName
        remaining attempts).queries → GetJobTarget k = none) ∧
    ((∃ k, attempts ≤ k ∧ k < attempts + remaining ∧ GetJobTarget k ≠ none) →
      ∃ legend : String,
        (checkJobTarget.loop GetJobTarget GetMachineState machineFullLegend jobName
          remaining attempts).out = ["Job " ++ jobName ++ " scheduled to " ++ legend ++ "\n"]) ∧
    ((∀ k, attempts ≤ k → k < attempts + remaining → GetJobTarget k = none) →
      (checkJobTarget.loop GetJobTarget GetMachineState machineFullLegend jobName
        remaining attempts).out = ["Job " ++ jobName ++ " still queued for scheduling\n"] ∧
      (checkJobTarget.loop GetJobTarget GetMachineState machineFullLegend jobName
        remaining attempts).queries = attempts + remaining) := by
  induction remaining generalizing attempts with
  | zero =>
    refine ⟨rfl, Nat.le_refl _, fun k h1 h2 => ?_, ?_, fun _ => ⟨rfl, rfl⟩⟩
    · simp only [checkJobTarget.loop] at h2
      omega
    · rintro ⟨k, h1, h2, _⟩
      omega
  | succ n ih =>
    unfold checkJobTarget.loop
    cases hq : GetJobTarget attempts with
    | some ms =>
      simp only
      cases hm : GetMachineState ms.BootID with
      | none => exact absurd hm (hfound attempts ms hq)
      | some m =>
        simp only
        refine ⟨trivial, by omega, fun k h1 h2 => (by omega), fun _ => ⟨_, rfl⟩, fun hall => ?_⟩
        have := hall attempts (Nat.le_refl _) (by omega)
        rw [hq] at this
        cases this
    | none =>
      simp only
      obtain ⟨h1, h2, h3, h4, h5⟩ := ih (attempts + 1)
      refine ⟨h1, by omega, fun k hk1 hk2 => ?_, ?_, fun hall => ?_⟩
      · by_cases hk : k = attempts
        · rw [hk]
          exact hq
        · exact h3 k (by omega) hk2
      · rintro ⟨k, hk1, hk2, hk3⟩
        have hk : k ≠ attempts := by
          intro hk
          rw [hk] at hk3
          exact hk3 hq
        exact h4 ⟨k, by omega, by omega, hk3⟩
      · obtain ⟨ho, hn⟩ := h5 (fun k hk1 hk2 => hall k (by omega) (by omega))
        exact ⟨ho, by omega⟩

/-- `checkJobTarget` when `GetMachineState` finds the machine of every
target: it does not panic, asks `GetJobTarget` at most `max(maxAttempts, 0)`
times, gets nil from every query but the last, and writes one line: the
`scheduled to` line when one of the first `maxAttempts` answers is non-nil,
the `still queued` line otherwise. -/
theorem checkJobTarget_of_found (GetJobTarget : Nat → Option MachineState)
    (GetMachineState : String → Option MachineState)
    (machineFullLegend : MachineState → Bool → String) (jobName : String) (maxAttempts : Int)
    (hfound : ∀ k ms, GetJobTarget k = some ms → GetMachineState ms.BootID ≠ none) :
    (checkJobTarget GetJobTarget GetMachineState machineFullLegend jobName
      maxAttempts).panicked = false ∧
    (checkJobTarget GetJobTarget GetMachineState machineFullLegend jobName
      maxAttempts).queries ≤ maxAttempts.toNat ∧
    (∀ k, k + 1 < (checkJobTarget GetJobTarget GetMachineState machineFullLegend jobName
        maxAttempts).queries → GetJobTarget k = none) ∧
    ((∃ k, k < maxAttempts.toNat ∧ GetJobTarget k ≠ none) →
      ∃ legend : String,
        (checkJobTarget GetJobTarget GetMachineState machineFullLegend jobName
          maxAttempts).out = ["Job " ++ jobName ++ " scheduled to " ++ legend ++ "\n"]) ∧
    ((∀ k, k < maxAttempts.toNat → GetJobTarget k = none) →
      (checkJobTarget GetJobTarget GetMachineState machineFullLegend jobName
        maxAttempts).out = ["Job " ++ jobName ++ " still queued for scheduling\n"] ∧
      (checkJobTarget GetJobTarget GetMachineState machineFullLegend jobName
        maxAttempts).queries = maxAttempts.toNat) := by
  obtain ⟨h1, h2, h3, h4, h5⟩ := checkJobTarget.loop_of_found GetJobTarget GetMachineState
    machineFullLegend jobName hfound maxAttempts.toNat 0
  unfold checkJobTarget
  refine ⟨h1, by omega, fun k hk => h3 k (Nat.zero_le k) hk, ?_, ?_⟩
  · rintro ⟨k, hk, hne⟩
    exact h4 ⟨k, Nat.zero_le k, by omega, hne⟩
  · intro hall
    obtain ⟨ho, hn⟩ := h5 (fun k _ hk => hall k (by omega))
    exact ⟨ho, by omega⟩

/-- C15, the code at the failing input.  The first query finds the job
scheduled to machine `m1`, but `GetMachineState("m1")` answers nil: the run
panics after one query and writes no line at all, of ten attempts
allowed. -/
theorem checkJobTarget_panics_on_missing_machine :
    checkJobTarget (fun _ => some sampleTarget) (fun _ => none) (fun m _ => m.BootID)
      "web.service" 10 = { queries := 1, out := [], panicked := true } := by
  decide

end fleetctl
